import Mathlib

/-
Formal model of the streaming chat-completion client of the emerald
repository.

The definitions below are shallow embeddings of:
  - src/lib/openai/stream-processor.ts (class StreamProcessor),
  - src/lib/openai/client.ts           (class OpenAIClient),
  - src/lib/tools/executor.ts          (class ToolExecutor),
together with a model of the platform facilities they use (JSON.parse,
TextDecoder, fetch, the tool side effects obtained from the browser).

Modelling conventions:
  - JS strings are modelled as Lean String; the raw byte chunks of the
    response body are modelled at character level as List Char.  The
    TextDecoder used with \x7b stream: true \x7d reassembles multibyte
    characters split across chunk boundaries, so a chunk boundary in the
    model is a character boundary.
  - JSON.parse is modelled by an executable recursive-descent parser over
    a Json value type.  The model accepts the JSON grammar restricted to
    integer numerals (no fraction/exponent); none of the payloads handled
    by this client carry non-integer numbers.
  - JS truthiness tests (if (x)) are modelled by the truthy function.
  - Exceptions are modelled by Except / Option-valued results; callbacks
    are modelled by an event trace (one Ev per callback invocation, in
    invocation order).
-/

namespace Emerald

/-- Shorthand used throughout: the character list of a string literal. -/
def strL (s : String) : List Char := s.toList

/-- The opening-brace character. -/
def lbrace : Char := Char.ofNat 123

/-- The closing-brace character. -/
def rbrace : Char := Char.ofNat 125

/-! ## JSON values and JSON.parse

Model of the JavaScript JSON value universe as far as this client can
observe it.  All payload values flowing through the stream processor are
produced by JSON.parse, so a Json value models a parsed payload. -/

inductive Json where
  | null : Json
  | bool (b : Bool) : Json
  | num (n : Int) : Json
  | str (s : String) : Json
  | arr (elems : List Json) : Json
  | obj (fields : List (String × Json)) : Json

/-- JSON whitespace. -/
def isJsonWs (c : Char) : Bool :=
  c = ' ' || c = '\n' || c = '\t' || c = '\r'

/-- Skip leading JSON whitespace. -/
def skipWs : List Char → List Char
  | [] => []
  | c :: r => if isJsonWs c then skipWs r else c :: r

/-- Value of a hexadecimal digit, if any. -/
def hexVal (c : Char) : Option Nat :=
  if '0' ≤ c ∧ c ≤ '9' then some (c.toNat - '0'.toNat)
  else if 'a' ≤ c ∧ c ≤ 'f' then some (c.toNat - 'a'.toNat + 10)
  else if 'A' ≤ c ∧ c ≤ 'F' then some (c.toNat - 'A'.toNat + 10)
  else none

/-- Parse exactly four hex digits (a \u escape payload). -/
def hex4 : List Char → Option (Nat × List Char)
  | a :: b :: c :: d :: r =>
    match hexVal a, hexVal b, hexVal c, hexVal d with
    | some x, some y, some z, some w => some (((x * 16 + y) * 16 + z) * 16 + w, r)
    | _, _, _, _ => none
  | _ => none

/-- Parse the body of a JSON string literal (after the opening quote),
accumulating decoded characters in reverse. -/
def parseStringBody : Nat → List Char → List Char → Option (String × List Char)
  | 0, _, _ => none
  | _ + 1, _, [] => none
  | f + 1, acc, c :: r =>
    if c = '"' then some (String.mk acc.reverse, r)
    else if c = '\\' then
      match r with
      | [] => none
      | e :: r2 =>
        if e = '"' then parseStringBody f ('"' :: acc) r2
        else if e = '\\' then parseStringBody f ('\\' :: acc) r2
        else if e = '/' then parseStringBody f ('/' :: acc) r2
        else if e = 'n' then parseStringBody f ('\n' :: acc) r2
        else if e = 't' then parseStringBody f ('\t' :: acc) r2
        else if e = 'r' then parseStringBody f ('\r' :: acc) r2
        else if e = 'b' then parseStringBody f ('\x08' :: acc) r2
        else if e = 'f' then parseStringBody f ('\x0C' :: acc) r2
        else if e = 'u' then
          match hex4 r2 with
          | some (n, r3) => parseStringBody f (Char.ofNat n :: acc) r3
          | none => none
        else none
    else parseStringBody f (c :: acc) r

/-- Is the character a decimal digit? -/
def isDigitCh (c : Char) : Bool := '0' ≤ c ∧ c ≤ '9'

/-- Parse a run of decimal digits into a natural number. -/
def parseDigits : List Char → Nat → Nat × List Char
  | c :: r, acc =>
    if isDigitCh c then parseDigits r (acc * 10 + (c.toNat - '0'.toNat))
    else (acc, c :: r)
  | [], acc => (acc, [])

/-- Parse a JSON integer numeral (optional minus sign, digits). -/
def parseNum : List Char → Option (Int × List Char)
  | '-' :: c :: r =>
    if isDigitCh c then
      let p := parseDigits r (c.toNat - '0'.toNat)
      some (-(p.1 : Int), p.2)
    else none
  | c :: r =>
    if isDigitCh c then
      let p := parseDigits r (c.toNat - '0'.toNat)
      some ((p.1 : Int), p.2)
    else none
  | [] => none

mutual

/-- Fueled recursive-descent parser for a JSON value.  Returns the parsed
value and the unconsumed remainder.  Fuel is an upper bound on the
recursion depth; callers supply more fuel than the input length so that
well-formed inputs never exhaust it. -/
def parseValue : Nat → List Char → Option (Json × List Char)
  | 0, _ => none
  | f + 1, l =>
    match skipWs l with
    | [] => none
    | c :: r =>
      if c = '"' then
        match parseStringBody (r.length + 1) [] r with
        | some (s, r2) => some (Json.str s, r2)
        | none => none
      else if c = lbrace then
        match skipWs r with
        | c2 :: r2 =>
          if c2 = rbrace then some (Json.obj [], r2)
          else parseMembers f (c2 :: r2) []
        | [] => none
      else if c = '[' then
        match skipWs r with
        | c2 :: r2 =>
          if c2 = ']' then some (Json.arr [], r2)
          else parseElems f (c2 :: r2) []
        | [] => none
      else if c = 't' then
        match r with
        | 'r' :: 'u' :: 'e' :: r2 => some (Json.bool true, r2)
        | _ => none
      else if c = 'f' then
        match r with
        | 'a' :: 'l' :: 's' :: 'e' :: r2 => some (Json.bool false, r2)
        | _ => none
      else if c = 'n' then
        match r with
        | 'u' :: 'l' :: 'l' :: r2 => some (Json.null, r2)
        | _ => none
      else
        match parseNum (c :: r) with
        | some (n, r2) => some (Json.num n, r2)
        | none => none

/-- Parse the members of a JSON object (after the opening brace, first
member not yet consumed), accumulating parsed fields in reverse. -/
def parseMembers : Nat → List Char → List (String × Json) → Option (Json × List Char)
  | 0, _, _ => none
  | f + 1, l, acc =>
    match skipWs l with
    | '"' :: r =>
      match parseStringBody (r.length + 1) [] r with
      | some (k, r2) =>
        match skipWs r2 with
        | ':' :: r3 =>
          match parseValue f r3 with
          | some (v, r4) =>
            match skipWs r4 with
            | ',' :: r5 => parseMembers f r5 ((k, v) :: acc)
            | c :: r5 =>
              if c = rbrace then some (Json.obj ((k, v) :: acc).reverse, r5)
              else none
            | [] => none
          | none => none
        | _ => none
      | none => none
    | _ => none

/-- Parse the elements of a JSON array (after the opening bracket, first
element not yet consumed), accumulating parsed elements in reverse. -/
def parseElems : Nat → List Char → List Json → Option (Json × List Char)
  | 0, _, _ => none
  | f + 1, l, acc =>
    match parseValue f l with
    | some (v, r) =>
      match skipWs r with
      | ',' :: r2 => parseElems f r2 (v :: acc)
      | ']' :: r2 => some (Json.arr (v :: acc).reverse, r2)
      | _ => none
    | none => none

end

/-- Model of JSON.parse: parse a complete JSON document; fail if anything
but whitespace remains. -/
def jsonParse (l : List Char) : Option Json :=
  match parseValue (l.length + 1) l with
  | some (v, r) => if skipWs r = [] then some v else none
  | none => none

/-- Field lookup on a parsed JSON value, modelling JS property access:
absent on non-objects; on duplicate keys JSON.parse keeps the last one. -/
def lookupLast : List (String × Json) → String → Option Json
  | [], _ => none
  | (k', v) :: rest, k =>
    match lookupLast rest k with
    | some r => some r
    | none => if k' = k then some v else none

/-- Model of the JS property access j.k (undefined becomes none). -/
def getField (j : Json) (k : String) : Option Json :=
  match j with
  | Json.obj fields => lookupLast fields k
  | _ => none

/-- JS truthiness of a possibly-absent value: undefined, null, false, 0
and the empty string are falsy; objects and arrays are always truthy. -/
def truthy : Option Json → Bool
  | none => false
  | some Json.null => false
  | some (Json.bool b) => b
  | some (Json.num n) => n ≠ 0
  | some (Json.str s) => s ≠ ""
  | some (Json.arr _) => true
  | some (Json.obj _) => true

/-- The string carried by a JSON value when it is a string (the only case
exercised by this client; other truthy values are modelled as ""). -/
def jstr : Option Json → String
  | some (Json.str s) => s
  | _ => ""

/-! ## Data model (src/types/openai.ts) -/

/-- The function part of an assembled ToolCall. -/
structure ToolCallFunction where
  name : String
  arguments : String
deriving DecidableEq

/-- An assembled tool call (interface ToolCall; the type field is always
the literal "function" and is omitted from the model). -/
structure ToolCall where
  id : String
  function : ToolCallFunction
deriving DecidableEq

/-- A tool result (interface ToolResult; the role field is always the
literal "tool" and is omitted from the model). -/
structure ToolResult where
  tool_call_id : String
  content : String
deriving DecidableEq

/-! ## Stream processor (src/lib/openai/stream-processor.ts)

The StreamProcessor's mutable fields buffer / toolCallsBuffer become the
PState record, threaded explicitly.  Each callback invocation becomes one
Ev in the emitted trace.  Thrown StreamError values are modelled by their
message string. -/

/-- One callback invocation observed by the StreamCallbacks consumer. -/
inductive Ev where
  | content (s : String)
  | toolCalls (calls : List ToolCall)
  | complete
  | error (message : String)
deriving DecidableEq

/-- One slot of the toolCallsBuffer: the partially accumulated id, name
and arguments of the tool call at that index. -/
structure Slot where
  id : String
  name : String
  arguments : String
deriving DecidableEq

/-- The slot a first occurrence of an index initializes. -/
def emptySlot : Slot := { id := "", name := "", arguments := "" }

/-- The toolCallsBuffer: a finite map from slot index to Slot, modelled
as an association list (JS object keyed by index.toString()). -/
abbrev TCBuf := List (Nat × Slot)

/-- One entry of a delta.tool_calls array: a tool-call fragment.  The
nested function object of the wire format is flattened into the name and
arguments fields. -/
structure Fragment where
  index : Nat
  id : Option String
  name : Option String
  arguments : Option String
deriving DecidableEq

/-- Look up the slot stored at an index, if any. -/
def lookupSlot : TCBuf → Nat → Option Slot
  | [], _ => none
  | (k, s) :: rest, i => if k = i then some s else lookupSlot rest i

/-- Store a slot at an index, replacing an existing entry or appending a
new one. -/
def setSlot : TCBuf → Nat → Slot → TCBuf
  | [], i, s => [(i, s)]
  | (k, s') :: rest, i, s =>
    if k = i then (k, s) :: rest else (k, s') :: setSlot rest i s

/-- Merge one fragment into a slot, concatenating each sub-field the
fragment carries as a non-empty string (the truthiness guards of
processToolCallsDeltas). -/
def mergeSlot (s : Slot) (f : Fragment) : Slot :=
  let s1 := match f.id with
    | some i => if i ≠ "" then { s with id := s.id ++ i } else s
    | none => s
  let s2 := match f.name with
    | some n => if n ≠ "" then { s1 with name := s1.name ++ n } else s1
    | none => s1
  match f.arguments with
  | some a => if a ≠ "" then { s2 with arguments := s2.arguments ++ a } else s2
  | none => s2

/-- One iteration of the processToolCallsDeltas loop: initialize the slot
keyed by the fragment's index if absent, then merge the fragment in. -/
def applyFragment (buf : TCBuf) (f : Fragment) : TCBuf :=
  setSlot buf f.index (mergeSlot ((lookupSlot buf f.index).getD emptySlot) f)

/-- StreamProcessor.processToolCallsDeltas: fold the fragments of one
delta.tool_calls array into the buffer in order. -/
def processToolCallsDeltas (buf : TCBuf) (frags : List Fragment) : TCBuf :=
  frags.foldl applyFragment buf

/-- Insert an entry into a key-sorted association list. -/
def insertByKey (p : Nat × Slot) : TCBuf → TCBuf
  | [] => [p]
  | q :: rest => if p.1 ≤ q.1 then p :: q :: rest else q :: insertByKey p rest

/-- Sort the buffer entries by ascending slot index (the
Object.keys(...).sort((a, b) => parseInt(a) - parseInt(b)) step). -/
def sortByKey : TCBuf → TCBuf
  | [] => []
  | p :: rest => insertByKey p (sortByKey rest)

/-- StreamProcessor.buildToolCallsFromBuffer: slots in ascending index
order, mapped to ToolCall values, keeping those whose id and name are
both non-empty (the JS truthiness filter). -/
def buildToolCallsFromBuffer (buf : TCBuf) : List ToolCall :=
  ((sortByKey buf).map fun p =>
      ({ id := p.2.id,
         function := { name := p.2.name, arguments := p.2.arguments } } : ToolCall)).filter
    fun tc => tc.id ≠ "" && tc.function.name ≠ ""

/-- Read one fragment off a delta.tool_calls array element.  An element
without an integer index field makes the source loop throw a TypeError
that processBuffer swallows; such elements are modelled as skipped.
Non-string id/name/arguments values are likewise not concatenated. -/
def fragOfJson (j : Json) : Option Fragment :=
  match getField j ("index") with
  | some (Json.num n) =>
    some { index := n.toNat,
           id := match getField j ("id") with
             | some (Json.str s) => some s
             | _ => none,
           name := match (getField j ("function")).bind (fun f => getField f ("name")) with
             | some (Json.str s) => some s
             | _ => none,
           arguments := match (getField j ("function")).bind (fun f => getField f ("arguments")) with
             | some (Json.str s) => some s
             | _ => none }
  | _ => none

/-- The first choice of a chunk (chunk.choices?.[0]), absent when the
falsy guard if (!choice) returns early. -/
def choice0 (j : Json) : Option Json :=
  match getField j ("choices") with
  | some (Json.arr (c :: _)) => if truthy (some c) then some c else none
  | _ => none

/-- The fragments of a choice's delta.tool_calls array. -/
def deltaFragments (delta : Option Json) : List Fragment :=
  match delta.bind (fun d => getField d ("tool_calls")) with
  | some (Json.arr l) => l.filterMap fragOfJson
  | _ => []

/-- The events the finish_reason branch of processChunk emits: on
finish_reason === "tool_calls", assemble the buffer and emit a toolCalls
event when at least one call was assembled. -/
def processChunkFinishEvs (choice : Json) (buf' : TCBuf) : List Ev :=
  match getField choice ("finish_reason") with
  | some (Json.str fr) =>
    if fr = "tool_calls" then
      let tcs := buildToolCallsFromBuffer buf'
      if 0 < tcs.length then [Ev.toolCalls tcs] else []
    else []
  | _ => []

/-- StreamProcessor.processChunk on a parsed chunk: emit a content event
for a truthy delta.content, merge delta.tool_calls fragments into the
buffer, and handle the finish_reason branch. -/
def processChunk (j : Json) (buf : TCBuf) : TCBuf × List Ev :=
  match choice0 j with
  | none => (buf, [])
  | some choice =>
    let delta := getField choice ("delta")
    let contentEvs :=
      if truthy (delta.bind (fun d => getField d ("content"))) then
        [Ev.content (jstr (delta.bind (fun d => getField d ("content"))))]
      else []
    let buf' :=
      if truthy (delta.bind (fun d => getField d ("tool_calls"))) then
        processToolCallsDeltas buf (deltaFragments delta)
      else buf
    (buf', contentEvs ++ processChunkFinishEvs choice buf')

/-- The message of the StreamError raised for a chunk with a truthy
error field: parsed.error.message || "OpenAI API Error". -/
def errEnvelopeMsg (j : Json) : String :=
  match (getField j ("error")).bind (fun e => getField e ("message")) with
  | some (Json.str s) => if s = "" then "OpenAI API Error" else s
  | _ => "OpenAI API Error"

/-- StreamProcessor.parseChunk: JSON.parse the payload (parse failure is
a StreamError "Invalid JSON in stream"), then fail with the embedded
message when the parsed object carries a truthy error field. -/
def parseChunk (data : List Char) : Except String Json :=
  match jsonParse data with
  | none => Except.error ("Invalid JSON in stream")
  | some j =>
    if truthy (getField j ("error")) then Except.error (errEnvelopeMsg j)
    else Except.ok j

/-- The characters of the sentinel payload. -/
def sentinelPayload : List Char := strL ("[DONE]")

/-- The characters of the line prefix recognized by the decoder. -/
def dataPrefix : List Char := strL ("data: ")

/-- Does the line carry the 6-character prefix data: ? -/
def isDataLine (line : List Char) : Bool := line.take 6 = dataPrefix

/-- The loop body of StreamProcessor.processBuffer over the complete
lines of one batch: data-prefixed lines are decoded, [DONE] returns
early (skipping the rest of the batch), payloads not starting with an
opening brace are ignored, a StreamError surfaces as an error event and
aborts (the throw), and decoded chunks are processed in order.  Returns
the updated buffer, the emitted events, and the thrown error if any. -/
def procLines (buf : TCBuf) : List (List Char) → TCBuf × List Ev × Option String
  | [] => (buf, [], none)
  | line :: rest =>
    if isDataLine line then
      let data := line.drop 6
      if data = sentinelPayload then (buf, [], none)
      else if data.head? = some lbrace then
        match parseChunk data with
        | Except.error e => (buf, [Ev.error e], some e)
        | Except.ok j =>
          let p := processChunk j buf
          let q := procLines p.1 rest
          (q.1, p.2 ++ q.2.1, q.2.2)
      else procLines buf rest
    else procLines buf rest

/-- Split a character sequence at newlines, JS-split style: the complete
lines (all segments before the last newline) and the trailing remainder
(the popped last segment, kept as the new buffer). -/
def splitLines : List Char → List (List Char) × List Char
  | [] => ([], [])
  | c :: rest =>
    let p := splitLines rest
    if c = '\n' then ([] :: p.1, p.2)
    else
      match p.1 with
      | [] => ([], c :: p.2)
      | l :: ls => ((c :: l) :: ls, p.2)

/-- The StreamProcessor state: the line-fragment buffer and the tool-call
slot buffer. -/
structure PState where
  buffer : List Char
  tcbuf : TCBuf
deriving DecidableEq

/-- The state reset() (and a fresh StreamProcessor) produces. -/
def resetState : PState := { buffer := [], tcbuf := [] }

/-- One iteration of the read loop of StreamProcessor.processStream:
append the decoded chunk to the buffer, split off the complete lines,
keep the remainder as the new buffer and run processBuffer on the
complete lines. -/
def procChunkStep (st : PState) (chunk : List Char) : PState × List Ev × Option String :=
  let parts := splitLines (st.buffer ++ chunk)
  let r := procLines st.tcbuf parts.1
  ({ buffer := parts.2, tcbuf := r.1 }, r.2.1, r.2.2)

/-- StreamProcessor.processStream over the list of chunks delivered by
the response body: process each chunk in order; a thrown StreamError is
reported once more through onError wrapped as "Stream processing failed"
and rethrown; when the reader reports done, onComplete fires. -/
def processStream (st : PState) : List (List Char) → PState × List Ev × Option String
  | [] => (st, [Ev.complete], none)
  | c :: cs =>
    let p := procChunkStep st c
    match p.2.2 with
    | some _ =>
      (p.1, p.2.1 ++ [Ev.error ("Stream processing failed")],
        some ("Stream processing failed"))
    | none =>
      let q := processStream p.1 cs
      (q.1, p.2.1 ++ q.2.1, q.2.2)

/-! ## Tool executor (src/lib/tools/executor.ts)

ToolExecutor.executeGetPageText reads the active tab through the chrome
APIs; that outside world is modelled by an oracle env mapping the
position of the call within one execute invocation to either the
extracted page content or the message of the ToolExecutionError the
extraction threw.  All values thrown inside the executor are Error
instances, so an exception is modelled by its message string. -/

/-- ToolExecutor.executeSingleTool: dispatch on the function name; the
only recognized tool is get_page_text, whose outcome the environment
oracle supplies; any other name throws
ToolExecutionError("Unknown tool: " + name). -/
def executeSingleTool (env : Nat → Except String String) (pos : Nat)
    (tc : ToolCall) : Except String ToolResult :=
  if tc.function.name = "get_page_text" then
    match env pos with
    | Except.ok content => Except.ok { tool_call_id := tc.id, content := content }
    | Except.error msg => Except.error msg
  else Except.error ("Unknown tool: " ++ tc.function.name)

/-- The loop of ToolExecutor.execute from a given call position: each
call yields one ToolResult, a thrown error being caught and mapped to an
Error: message result carrying the call's id. -/
def executeFrom (env : Nat → Except String String) (pos : Nat) :
    List ToolCall → List ToolResult
  | [] => []
  | tc :: rest =>
    (match executeSingleTool env pos tc with
     | Except.ok r => r
     | Except.error msg => { tool_call_id := tc.id, content := "Error: " ++ msg }) ::
    executeFrom env (pos + 1) rest

/-- ToolExecutor.execute. -/
def execute (env : Nat → Except String String) (calls : List ToolCall) :
    List ToolResult :=
  executeFrom env 0 calls

/-! ## Client (src/lib/openai/client.ts)

OpenAIClient.sendMessage issues the request, fails with an ApiError on a
non-success status, and otherwise drives the stream processor with
wrapped callbacks whose onToolCalls executes the assembled calls and
recursively re-issues sendMessage on the extended message list.

The network is modelled by the list of Round values successive fetches
return; an empty list models a fetch rejection.  The recursive
continuation started by the (un-awaited) onToolCalls callback is run
after the events of its parent round, which matches the prevailing
JS schedule (the parent read loop continues while the continuation
awaits the tool results); the claims proved below only depend on the
multiset of per-round events, which is schedule-independent. -/

/-- One HTTP response: its status line and the chunks of its body. -/
structure Round where
  status : Nat
  statusText : String
  chunks : List (List Char)

/-- A message of the conversation list (interface OpenAIMessage; content
parts and images are irrelevant to the orchestration logic and are
modelled as plain text). -/
structure Msg where
  role : String
  content : Option String
  tool_calls : List ToolCall
  tool_call_id : Option String

/-- The ApiError values sendMessage throws: message and optional status. -/
structure ApiErr where
  message : String
  statusCode : Option Nat
deriving DecidableEq

/-- The user-role view of a message list entry created from text. -/
def userMsg (s : String) : Msg :=
  { role := "user", content := some s, tool_calls := [], tool_call_id := none }

/-- The assistant message carrying the assembled tool calls appended by
handleToolResults (content = null). -/
def assistantToolMsg (calls : List ToolCall) : Msg :=
  { role := "assistant", content := none, tool_calls := calls, tool_call_id := none }

/-- The message a ToolResult is appended as. -/
def msgOfResult (r : ToolResult) : Msg :=
  { role := "tool", content := some r.content, tool_calls := [],
    tool_call_id := some r.tool_call_id }

/-- The message of the ApiError built from a non-success response:
HTTP status: statusText. -/
def httpErrMsg (r : Round) : String :=
  "HTTP " ++ toString r.status ++ ": " ++ r.statusText

/-- Is the event a toolCalls event (intercepted by the wrapped
callbacks, hence invisible to the caller)? -/
def isToolCallsEv : Ev → Bool
  | Ev.toolCalls _ => true
  | _ => false

/-- The calls carried by a toolCalls event. -/
def toolCallsOf : Ev → Option (List ToolCall)
  | Ev.toolCalls l => some l
  | _ => none

/-- The result of running a conversation turn: the caller-visible event
trace, the final processor state, the responses not yet consumed, and
the turn's resolution (ok) or rejection (the thrown ApiError). -/
structure TurnOut where
  trace : List Ev
  state : PState
  remaining : List Round
  outcome : Except ApiErr Unit

/-- The two recursion entry points of the client: running sendMessage,
and running the pending onToolCalls continuations of one round. -/
inductive TurnCall where
  | turn (rounds : List Round) (msgs : List Msg) (st : PState)
  | conts (msgs : List Msg) (pending : List (List ToolCall))
      (rounds : List Round) (st : PState)

/-- The interleaved recursion of OpenAIClient.sendMessage and the
wrapped onToolCalls callback, fueled (each recursive step consumes at
least one response, so any fuel above the response count is enough).

turn: a missing response models a rejected fetch (wrapped into an
ApiError by the catch of sendMessage); a non-success status throws
ApiError(httpErrMsg, status) with no events; otherwise the stream is
processed, toolCalls events are intercepted and their continuations run
(each executes the calls, appends the assistant and tool messages,
resets the processor and re-issues sendMessage); a StreamError thrown
by processStream is wrapped into an ApiError and rethrown.

conts: each continuation in order; a rejection of the recursive
sendMessage is caught and surfaced once through onError. -/
def runAux (env : Nat → Except String String) : Nat → TurnCall → TurnOut
  | 0, TurnCall.turn rounds _ st =>
    { trace := [], state := st, remaining := rounds,
      outcome := Except.error { message := "fuel exhausted", statusCode := none } }
  | 0, TurnCall.conts _ _ rounds st =>
    { trace := [], state := st, remaining := rounds,
      outcome := Except.error { message := "fuel exhausted", statusCode := none } }
  | _ + 1, TurnCall.turn [] _ st =>
    { trace := [], state := st, remaining := [],
      outcome := Except.error { message := "Failed to fetch", statusCode := none } }
  | fuel + 1, TurnCall.turn (r :: rest) msgs st =>
    if 200 ≤ r.status ∧ r.status < 300 then
      let p := processStream st r.chunks
      let caller := p.2.1.filter (fun e => !isToolCallsEv e)
      let pending := p.2.1.filterMap toolCallsOf
      let c := runAux env fuel (TurnCall.conts msgs pending rest p.1)
      { trace := caller ++ c.trace, state := c.state, remaining := c.remaining,
        outcome :=
          match p.2.2 with
          | some e => Except.error { message := e, statusCode := none }
          | none => Except.ok () }
    else
      { trace := [], state := st, remaining := rest,
        outcome := Except.error { message := httpErrMsg r, statusCode := some r.status } }
  | _ + 1, TurnCall.conts _ [] rounds st =>
    { trace := [], state := st, remaining := rounds, outcome := Except.ok () }
  | fuel + 1, TurnCall.conts msgs (calls :: more) rounds _st =>
    let results := execute env calls
    let msgs' := msgs ++ [assistantToolMsg calls] ++ results.map msgOfResult
    let inner := runAux env fuel (TurnCall.turn rounds msgs' resetState)
    let innerEvs := inner.trace ++
      (match inner.outcome with
       | Except.ok _ => []
       | Except.error e => [Ev.error e.message])
    let after := runAux env fuel (TurnCall.conts msgs more inner.remaining inner.state)
    { trace := innerEvs ++ after.trace, state := after.state,
      remaining := after.remaining, outcome := Except.ok () }

/-- OpenAIClient.sendMessage: run one conversation turn. -/
def runTurn (env : Nat → Except String String) (fuel : Nat) (rounds : List Round)
    (msgs : List Msg) (st : PState) : TurnOut :=
  runAux env fuel (TurnCall.turn rounds msgs st)

/-! ## Reference functions used to state the claims

These definitions follow the wording of the specification (canonical
per-line views of a response, field-wise concatenation, keyed assembly);
the theorems below relate them to the source-translated functions. -/

/-- The content string a callback event carries, if any. -/
def contentOf : Ev → Option String
  | Ev.content s => some s
  | _ => none

/-- The ordered onContent values of a trace. -/
def contentsOfEvs (evs : List Ev) : List String := evs.filterMap contentOf

/-- The content deltas one parsed chunk contributes (independent of any
processor state). -/
def chunkContents (j : Json) : List String :=
  match choice0 j with
  | none => []
  | some choice =>
    let delta := getField choice ("delta")
    if truthy (delta.bind (fun d => getField d ("content"))) then
      [jstr (delta.bind (fun d => getField d ("content")))]
    else []

/-- How the decoder treats one complete line: ignored, the sentinel, a
fatal decode error, or a normal line with its content deltas. -/
inductive LineClass where
  | ignored
  | sentinel
  | fatal (e : String)
  | normal (contents : List String)

/-- Classify one complete line. -/
def lineClass (line : List Char) : LineClass :=
  if isDataLine line then
    let data := line.drop 6
    if data = sentinelPayload then LineClass.sentinel
    else if data.head? = some lbrace then
      match parseChunk data with
      | Except.error e => LineClass.fatal e
      | Except.ok j => LineClass.normal (chunkContents j)
    else LineClass.ignored
  else LineClass.ignored

/-- How one processBuffer batch ends: all lines consumed, the early
return of the sentinel, or a thrown StreamError. -/
inductive BatchEnd where
  | ran
  | stopped
  | failed
deriving DecidableEq

/-- The content deltas of one batch of complete lines together with how
the batch ends. -/
def batchSummary : List (List Char) → List String × BatchEnd
  | [] => ([], BatchEnd.ran)
  | l :: rest =>
    match lineClass l with
    | LineClass.ignored => batchSummary rest
    | LineClass.sentinel => ([], BatchEnd.stopped)
    | LineClass.fatal _ => ([], BatchEnd.failed)
    | LineClass.normal cs => (cs ++ (batchSummary rest).1, (batchSummary rest).2)

/-- The canonical content deltas of a whole response, reading its
complete lines in order and stopping at the first sentinel or fatal
line. -/
def contentsUpTo : List (List Char) → List String
  | [] => []
  | l :: rest =>
    match lineClass l with
    | LineClass.ignored => contentsUpTo rest
    | LineClass.sentinel => []
    | LineClass.fatal _ => []
    | LineClass.normal cs => cs ++ contentsUpTo rest

/-- No data:-prefixed line follows a sentinel line in the given list of
complete lines. -/
def noDataAfterDone : List (List Char) → Bool
  | [] => true
  | l :: rest =>
    match lineClass l with
    | LineClass.sentinel => rest.all (fun x => !isDataLine x)
    | _ => noDataAfterDone rest

/-- The concatenation of the values a field takes over a fragment list
(absent fields contributing the empty string). -/
def fieldConcat (l : List Fragment) (f : Fragment → Option String) : String :=
  String.join (l.map (fun x => (f x).getD ""))

/-- A slot extended by a whole fragment list: each field is the existing
value followed by the concatenation of that field over the fragments. -/
def extendSlot (s : Slot) (l : List Fragment) : Slot :=
  { id := s.id ++ fieldConcat l (fun x => x.id),
    name := s.name ++ fieldConcat l (fun x => x.name),
    arguments := s.arguments ++ fieldConcat l (fun x => x.arguments) }

/-- The assembled tool calls keyed by their slot index (the keyed view
of buildToolCallsFromBuffer). -/
def assembledKeyed (buf : TCBuf) : List (Nat × ToolCall) :=
  (sortByKey buf).filterMap fun p =>
    if p.2.id ≠ "" ∧ p.2.name ≠ "" then
      some (p.1, ({ id := p.2.id,
                    function := { name := p.2.name, arguments := p.2.arguments } } : ToolCall))
    else none

/-! ## Concrete inputs used by the closed statements below -/

/-- A line carrying the given payload, as a line of a response body. -/
def lineChunk (l : List Char) : List Char := l ++ ['\n']

/-- The sentinel line data: [DONE]. -/
def sentinelLine : List Char := dataPrefix ++ sentinelPayload

/-- A finish_reason "stop" line with no delta. -/
def stopFinishLine : List Char :=
  strL ("data: \x7b\"choices\":[\x7b\"finish_reason\":\"stop\"\x7d]\x7d")

/-- A finish_reason "tool_calls" line with no delta. -/
def finishToolCallsLine : List Char :=
  strL ("data: \x7b\"choices\":[\x7b\"finish_reason\":\"tool_calls\"\x7d]\x7d")

/-- A content delta line carrying the text X. -/
def contentXLine : List Char :=
  strL ("data: \x7b\"choices\":[\x7b\"delta\":\x7b\"content\":\"X\"\x7d\x7d]\x7d")

/-- A delta line carrying one tool-call fragment for slot 0 whose id
contributes the text X. -/
def extendIdLine : List Char :=
  strL ("data: \x7b\"choices\":[\x7b\"delta\":\x7b\"tool_calls\":[\x7b\"index\":0,\"id\":\"X\"\x7d]\x7d\x7d]\x7d")

/-- The payload of the invalid-JSON line of the repository's own stream
test: it begins with an opening brace but is not valid JSON. -/
def invalidJsonPayload : List Char := strL ("\x7binvalid json\x7d")

/-- A slot buffer holding one completed slot (index 0, id call_1, name
tool1). -/
def oneSlotBuf : TCBuf := [(0, { id := "call_1", name := "tool1", arguments := "" })]

/-- An environment in which every page extraction succeeds. -/
def envAllOk : Nat → Except String String := fun _ => Except.ok ("PAGE")

/-- An environment in which the first dispatched call fails and later
ones succeed. -/
def envFailFirst : Nat → Except String String :=
  fun i => if i = 0 then Except.error ("No active tab found") else Except.ok ("PAGE")

/-- A 200 round whose single chunk delivers one complete get_page_text
tool call and the tool_calls finish reason. -/
def pageToolRound : Round :=
  { status := 200, statusText := "OK",
    chunks := [lineChunk (strL ("data: \x7b\"choices\":[\x7b\"delta\":\x7b\"tool_calls\":[\x7b\"index\":0,\"id\":\"call_1\",\"function\":\x7b\"name\":\"get_page_text\",\"arguments\":\"\x7b\x7d\"\x7d\x7d]\x7d,\"finish_reason\":\"tool_calls\"\x7d]\x7d"))] }

/-- A 200 round whose single chunk delivers two complete tool calls and
the tool_calls finish reason. -/
def twoCallToolRound : Round :=
  { status := 200, statusText := "OK",
    chunks := [lineChunk (strL ("data: \x7b\"choices\":[\x7b\"delta\":\x7b\"tool_calls\":[\x7b\"index\":0,\"id\":\"call_1\",\"function\":\x7b\"name\":\"get_page_text\",\"arguments\":\"\x7b\x7d\"\x7d\x7d,\x7b\"index\":1,\"id\":\"call_2\",\"function\":\x7b\"name\":\"get_page_text\",\"arguments\":\"\x7b\x7d\"\x7d\x7d]\x7d,\"finish_reason\":\"tool_calls\"\x7d]\x7d"))] }

/-- A 200 round streaming the content Hi and then the sentinel. -/
def finalContentRound : Round :=
  { status := 200, statusText := "OK",
    chunks := [lineChunk (strL ("data: \x7b\"choices\":[\x7b\"delta\":\x7b\"content\":\"Hi\"\x7d\x7d]\x7d")),
               lineChunk sentinelLine] }

/-- A 200 round whose single line is an upstream error envelope. -/
def upstreamErrorRound : Round :=
  { status := 200, statusText := "OK",
    chunks := [lineChunk (strL ("data: \x7b\"error\":\x7b\"message\":\"boom\"\x7d\x7d"))] }

/-- A non-success response. -/
def serverErrorRound : Round :=
  { status := 500, statusText := "Server Error", chunks := [] }

/-! ## Helper lemmas -/

theorem strAppend_empty (s : String) : s ++ "" = s := by
  simp

theorem strJoin_cons (a : String) (l : List String) :
    String.join (a :: l) = a ++ String.join l := by
  have shift : ∀ (l : List String) (x : String),
      List.foldl (fun r s => r ++ s) x l = x ++ List.foldl (fun r s => r ++ s) "" l := by
    intro l
    induction l with
    | nil => intro x; simp
    | cons b l ih =>
      intro x
      simp only [List.foldl_cons]
      rw [ih (x ++ b), ih ("" ++ b)]
      simp [String.append_assoc]
  simp only [String.join, List.foldl_cons]
  rw [shift l ("" ++ a)]
  simp

theorem executeFrom_length (env : Nat → Except String String) (pos : Nat)
    (calls : List ToolCall) : (executeFrom env pos calls).length = calls.length := by
  induction calls generalizing pos with
  | nil => rfl
  | cons tc rest ih => simp [executeFrom, ih]

theorem executeFrom_get (env : Nat → Except String String) (pos : Nat)
    (calls : List ToolCall) (i : Nat) :
    (executeFrom env pos calls)[i]? =
      (calls[i]?).map fun tc =>
        match executeSingleTool env (pos + i) tc with
        | Except.ok r => r
        | Except.error m => { tool_call_id := tc.id, content := "Error: " ++ m } := by
  induction calls generalizing pos i with
  | nil => simp [executeFrom]
  | cons tc rest ih =>
    cases i with
    | zero => simp [executeFrom]
    | succ n =>
      simp only [executeFrom, List.getElem?_cons_succ]
      rw [ih (pos + 1) n]
      have : pos + 1 + n = pos + (n + 1) := by omega
      rw [this]

theorem execute_get (env : Nat → Except String String)
    (calls : List ToolCall) (i : Nat) :
    (execute env calls)[i]? =
      (calls[i]?).map fun tc =>
        match executeSingleTool env i tc with
        | Except.ok r => r
        | Except.error m => { tool_call_id := tc.id, content := "Error: " ++ m } := by
  rw [execute, executeFrom_get env 0 calls i, Nat.zero_add]

/-- Claim C10 (confirmed): ToolExecutor.execute never rejects: it resolves
with exactly one ToolResult per input call, the i-th result carrying the
i-th call's id as tool_call_id; and a call whose function name is not a
recognized tool (the only recognized tool is get_page_text) yields the
result content Error: Unknown tool: name instead of an escaping
exception.  Totality of the model function expresses that the per-call
try/catch lets no exception escape execute. -/
theorem c10_executor_total_unknown_tool (env : Nat → Except String String)
    (calls : List ToolCall) :
    (execute env calls).length = calls.length ∧
    (∀ i : Nat, ∀ tc : ToolCall, calls[i]? = some tc →
      ∃ r : ToolResult, (execute env calls)[i]? = some r ∧ r.tool_call_id = tc.id) ∧
    (∀ i : Nat, ∀ tc : ToolCall, calls[i]? = some tc →
      tc.function.name ≠ "get_page_text" →
      (execute env calls)[i]? =
        some { tool_call_id := tc.id,
               content := "Error: Unknown tool: " ++ tc.function.name }) := by
  refine ⟨executeFrom_length env 0 calls, ?_, ?_⟩
  · intro i tc h
    rw [execute_get env calls i, h]
    cases hs : executeSingleTool env i tc with
    | ok r =>
      refine ⟨r, by simp [hs], ?_⟩
      unfold executeSingleTool at hs
      by_cases hn : tc.function.name = "get_page_text"
      · rw [if_pos hn] at hs
        cases he : env i with
        | ok c => rw [he] at hs; cases hs; rfl
        | error m => rw [he] at hs; cases hs
      · rw [if_neg hn] at hs; cases hs
    | error m =>
      exact ⟨{ tool_call_id := tc.id, content := "Error: " ++ m }, by simp [hs], rfl⟩
  · intro i tc h hn
    rw [execute_get env calls i, h]
    have hs : executeSingleTool env i tc =
        Except.error ("Unknown tool: " ++ tc.function.name) := by
      unfold executeSingleTool
      rw [if_neg hn]
    simp only [Option.map_some', hs]
    rw [← String.append_assoc]
    rfl

set_option maxRecDepth 100000 in
/-- Claim C7 (confirmed): dispatching N assembled ToolCalls produces
exactly N ToolResults, in the same order (the i-th result belongs to the
i-th call and carries its tool_call_id); a call on which the dispatcher
raises still yields a result whose content is Error: followed by the
raised message, the remaining calls are still dispatched (every index
keeps its result), and the turn is not aborted: a concrete turn whose
first of two dispatched calls fails still issues the continuation round,
consumes it, completes, and surfaces no error. -/
theorem c7_dispatch_result_guarantee (env : Nat → Except String String)
    (calls : List ToolCall) :
    (execute env calls).length = calls.length ∧
    (∀ i : Nat, ∀ tc : ToolCall, calls[i]? = some tc →
      ∃ r : ToolResult, (execute env calls)[i]? = some r ∧ r.tool_call_id = tc.id) ∧
    (∀ i : Nat, ∀ tc : ToolCall, ∀ m : String, calls[i]? = some tc →
      tc.function.name = "get_page_text" → env i = Except.error m →
      (execute env calls)[i]? =
        some { tool_call_id := tc.id, content := "Error: " ++ m }) ∧
    ((runTurn envFailFirst 3 [twoCallToolRound, finalContentRound] [] resetState).trace =
        [Ev.complete, Ev.content "Hi", Ev.complete] ∧
      (runTurn envFailFirst 3 [twoCallToolRound, finalContentRound] [] resetState).remaining = []) := by
  refine ⟨executeFrom_length env 0 calls, ?_, ?_, by constructor <;> rfl⟩
  · intro i tc h
    rw [execute_get env calls i, h]
    cases hs : executeSingleTool env i tc with
    | ok r =>
      refine ⟨r, by simp [hs], ?_⟩
      unfold executeSingleTool at hs
      by_cases hn : tc.function.name = "get_page_text"
      · rw [if_pos hn] at hs
        cases he : env i with
        | ok c => rw [he] at hs; cases hs; rfl
        | error m => rw [he] at hs; cases hs
      · rw [if_neg hn] at hs; cases hs
    | error m =>
      exact ⟨{ tool_call_id := tc.id, content := "Error: " ++ m }, by simp [hs], rfl⟩
  · intro i tc m h hn he
    rw [execute_get env calls i, h]
    have hs : executeSingleTool env i tc = Except.error m := by
      unfold executeSingleTool
      rw [if_pos hn, he]
    simp only [Option.map_some', hs]

/-- Witness for C7 at a concrete input: of two get_page_text calls with
the dispatcher failing on the first, the first result is the Error:
message tied to call_1. -/
theorem c7_dispatch_result_guarantee_witness :
    ([({ id := "call_1", function := { name := "get_page_text", arguments := "" } } : ToolCall),
      ({ id := "call_2", function := { name := "get_page_text", arguments := "" } } : ToolCall)][0]? =
        some ({ id := "call_1", function := { name := "get_page_text", arguments := "" } } : ToolCall)) ∧
    envFailFirst 0 = Except.error ("No active tab found") ∧
    (execute envFailFirst
        [{ id := "call_1", function := { name := "get_page_text", arguments := "" } },
         { id := "call_2", function := { name := "get_page_text", arguments := "" } }])[0]? =
      some { tool_call_id := "call_1", content := "Error: " ++ "No active tab found" } :=
  ⟨rfl, rfl,
    (c7_dispatch_result_guarantee envFailFirst
        [{ id := "call_1", function := { name := "get_page_text", arguments := "" } },
         { id := "call_2", function := { name := "get_page_text", arguments := "" } }]).2.2.1
      0 _ ("No active tab found") rfl rfl rfl⟩

theorem isDataLine_of_append (payload : List Char) :
    isDataLine (dataPrefix ++ payload) = true := rfl

theorem drop_dataPrefix (payload : List Char) :
    (dataPrefix ++ payload).drop 6 = payload := rfl

theorem ne_sentinel_of_head_lbrace (payload : List Char)
    (h : payload.head? = some lbrace) : payload ≠ sentinelPayload := by
  intro he
  rw [he] at h
  exact absurd h (by decide)

theorem splitLines_newline_free_line (l : List Char)
    (h : l.all (fun c => !(c = '\n')) = true) :
    splitLines (l ++ ['\n']) = ([l], []) := by
  induction l with
  | nil => rfl
  | cons c rest ih =>
    simp only [List.all_cons, Bool.and_eq_true, Bool.not_eq_true'] at h
    have hr := ih h.2
    have hc : ¬(c = '\n') := by simpa using h.1
    show splitLines (c :: (rest ++ ['\n'])) = ([c :: rest], [])
    simp only [splitLines, hr]
    rw [if_neg hc]

theorem processStream_single_ok (st : PState) (c : List Char) (tcb' : TCBuf)
    (evs : List Ev)
    (h : procLines st.tcbuf (splitLines (st.buffer ++ c)).1 = (tcb', evs, none)) :
    processStream st [c] =
      ({ buffer := (splitLines (st.buffer ++ c)).2, tcbuf := tcb' },
       evs ++ [Ev.complete], none) := by
  simp only [processStream, procChunkStep, h]

/-- Claim C9 (confirmed): the tool-call slot buffer is cleared only by
an explicit reset(): processStream leaves it exactly as accumulated
(here: a round holding only a finish_reason tool_calls event returns the
state unchanged), buildToolCallsFromBuffer does not clear it, so a
second tool_calls finish without an intervening reset fires onToolCalls
again with the same assembled calls; a preceding fragment line instead
extends the persisting slots (the concrete conjunct, where the slot
accumulated in an earlier round grows from call_1 to call_1X); after
reset() the buffer is empty and the same finish event assembles nothing
and fires no onToolCalls. -/
theorem c9_slot_buffer_persists (tc : TCBuf)
    (h : buildToolCallsFromBuffer tc ≠ []) :
    (processStream { buffer := [], tcbuf := tc } [lineChunk finishToolCallsLine]).2.1 =
      [Ev.toolCalls (buildToolCallsFromBuffer tc), Ev.complete] ∧
    (processStream { buffer := [], tcbuf := tc } [lineChunk finishToolCallsLine]).1 =
      { buffer := [], tcbuf := tc } ∧
    (processStream
        (processStream { buffer := [], tcbuf := tc } [lineChunk finishToolCallsLine]).1
        [lineChunk finishToolCallsLine]).2.1 =
      [Ev.toolCalls (buildToolCallsFromBuffer tc), Ev.complete] ∧
    (processStream { buffer := [], tcbuf := oneSlotBuf }
        [lineChunk extendIdLine, lineChunk finishToolCallsLine]).2.1 =
      [Ev.toolCalls [{ id := "call_1X", function := { name := "tool1", arguments := "" } }],
       Ev.complete] ∧
    resetState.tcbuf = [] ∧
    (processStream resetState [lineChunk finishToolCallsLine]).2.1 = [Ev.complete] := by
  have hpos : 0 < (buildToolCallsFromBuffer tc).length := List.length_pos.mpr h
  have e1 : procLines tc [finishToolCallsLine] =
      (tc, (if 0 < (buildToolCallsFromBuffer tc).length then
              [Ev.toolCalls (buildToolCallsFromBuffer tc)] else []) ++ [], none) := rfl
  rw [if_pos hpos] at e1
  have e2 : processStream { buffer := [], tcbuf := tc } [lineChunk finishToolCallsLine] =
      ({ buffer := [], tcbuf := tc },
       [Ev.toolCalls (buildToolCallsFromBuffer tc)] ++ [Ev.complete], none) :=
    processStream_single_ok { buffer := [], tcbuf := tc } (lineChunk finishToolCallsLine) tc _ e1
  refine ⟨by rw [e2]; rfl, by rw [e2], ?_, rfl, rfl, rfl⟩
  show (processStream { buffer := [], tcbuf := tc } [lineChunk finishToolCallsLine]).2.1 = _
  rw [e2]
  rfl

/-- Witness for C9: a buffer holding one completed slot assembles to a
non-empty call list. -/
theorem c9_slot_buffer_persists_witness :
    buildToolCallsFromBuffer oneSlotBuf ≠ [] ∧
    (processStream { buffer := [], tcbuf := oneSlotBuf }
        [lineChunk finishToolCallsLine]).2.1 =
      [Ev.toolCalls (buildToolCallsFromBuffer oneSlotBuf), Ev.complete] :=
  ⟨by decide, (c9_slot_buffer_persists oneSlotBuf (by decide)).1⟩

theorem processChunkFinishEvs_count_complete (choice : Json) (b : TCBuf) :
    ((processChunkFinishEvs choice b).count Ev.complete) = 0 := by
  unfold processChunkFinishEvs
  split
  · split
    · dsimp only []
      split
      · exact List.count_eq_zero.mpr (by simp)
      · rfl
    · rfl
  · rfl

theorem processChunk_count_complete (j : Json) (buf : TCBuf) :
    ((processChunk j buf).2.count Ev.complete) = 0 := by
  unfold processChunk
  cases hc : choice0 j with
  | none => rfl
  | some choice =>
    dsimp only []
    rw [List.count_append, Nat.add_eq_zero]
    constructor
    · split
      · exact List.count_eq_zero.mpr (by simp)
      · rfl
    · exact processChunkFinishEvs_count_complete choice _

theorem procLines_count_complete (lines : List (List Char)) : ∀ tc : TCBuf,
    ((procLines tc lines).2.1.count Ev.complete) = 0 := by
  induction lines with
  | nil => intro tc; rfl
  | cons line rest ih =>
    intro tc
    unfold procLines
    by_cases h1 : isDataLine line = true
    · rw [if_pos h1]
      by_cases h2 : line.drop 6 = sentinelPayload
      · rw [if_pos h2]; rfl
      · rw [if_neg h2]
        by_cases h3 : (line.drop 6).head? = some lbrace
        · rw [if_pos h3]
          cases hp : parseChunk (line.drop 6) with
          | error e =>
            dsimp only []
            exact List.count_eq_zero.mpr (by simp)
          | ok j =>
            dsimp only []
            rw [List.count_append, processChunk_count_complete, ih]
        · rw [if_neg h3]; exact ih tc
    · rw [if_neg (by simpa using h1)]; exact ih tc

theorem processStream_count_complete (cs : List (List Char)) : ∀ st : PState,
    (processStream st cs).2.2 = none →
    ((processStream st cs).2.1.count Ev.complete) = 1 := by
  induction cs with
  | nil => intro st _; rfl
  | cons c cs ih =>
    intro st h
    unfold processStream at h ⊢
    dsimp only [] at h ⊢
    cases ho : (procChunkStep st c).2.2 with
    | some e =>
      rw [ho] at h
      dsimp only [] at h
      exact absurd h (by simp)
    | none =>
      rw [ho] at h
      dsimp only [] at h
      dsimp only []
      rw [List.count_append]
      have hb : ((procChunkStep st c).2.1.count Ev.complete) = 0 := by
        unfold procChunkStep
        dsimp only []
        exact procLines_count_complete _ _
      rw [hb, ih _ h]

/-- Claim C3 (corrected): on a round whose stream raises no error,
onComplete fires exactly once, when the reader reports the stream done —
FinishSignal(stop) and FinishSignal(length) cause no action at all (the
stop line is a no-op and processing simply continues), and the orchestrator
does not return at the sentinel either: data: [DONE] only ends the current
processBuffer batch, skipping the remaining complete lines of that batch,
while lines delivered in later chunks are still decoded (so events can
still be decoded after the sentinel; see the counterexample). -/
theorem c3_completion_behaviour :
    (∀ (cs : List (List Char)) (st : PState), (processStream st cs).2.2 = none →
      ((processStream st cs).2.1.count Ev.complete) = 1) ∧
    (∀ (tc : TCBuf) (rest : List (List Char)),
      procLines tc (sentinelLine :: rest) = (tc, [], none)) ∧
    (∀ (tc : TCBuf) (cs : List (List Char)),
      processStream { buffer := [], tcbuf := tc } (lineChunk sentinelLine :: cs) =
        processStream { buffer := [], tcbuf := tc } cs) ∧
    (∀ (tc : TCBuf) (rest : List (List Char)),
      procLines tc (stopFinishLine :: rest) = procLines tc rest) :=
  ⟨fun cs st h => processStream_count_complete cs st h,
   fun _ _ => rfl, fun _ _ => rfl, fun _ _ => rfl⟩

/-- Witness for C3: the error-free round made of a content line, a stop
finish line and the sentinel fires onComplete exactly once. -/
theorem c3_completion_behaviour_witness :
    (processStream resetState
        [lineChunk contentXLine, lineChunk stopFinishLine, lineChunk sentinelLine]).2.2 = none ∧
    ((processStream resetState
        [lineChunk contentXLine, lineChunk stopFinishLine, lineChunk sentinelLine]).2.1.count
      Ev.complete) = 1 :=
  ⟨rfl, c3_completion_behaviour.1
    [lineChunk contentXLine, lineChunk stopFinishLine, lineChunk sentinelLine]
    resetState rfl⟩

/-- Counterexample for C3 as stated: after the sentinel line data: [DONE]
has been seen (first chunk), a content line arriving in a later chunk is
still decoded and delivered; the stream is not stopped at the sentinel. -/
theorem c3_counterexample :
    (processStream resetState [lineChunk sentinelLine, lineChunk contentXLine]).2.1 =
      [Ev.content ("X"), Ev.complete] := rfl

theorem lookupSlot_setSlot (buf : TCBuf) (i : Nat) (s : Slot) : ∀ j : Nat,
    lookupSlot (setSlot buf i s) j = if i = j then some s else lookupSlot buf j := by
  induction buf with
  | nil => intro j; rfl
  | cons p rest ih =>
    obtain ⟨k, s'⟩ := p
    intro j
    by_cases hk : k = i
    · subst hk
      rw [show setSlot ((k, s') :: rest) k s = (k, s) :: rest by simp [setSlot]]
      by_cases hj : k = j
      · subst hj; simp [lookupSlot]
      · simp [lookupSlot, hj]
    · rw [show setSlot ((k, s') :: rest) i s = (k, s') :: setSlot rest i s by
        simp [setSlot, hk]]
      by_cases hj : k = j
      · subst hj
        have hij : ¬ i = k := fun hik => hk hik.symm
        simp [lookupSlot, hij]
      · simp [lookupSlot, hj, ih j]

theorem strJoin_singleton (x : String) : String.join [x] = x := rfl

theorem extendSlot_nil (s : Slot) : extendSlot s [] = s := by
  obtain ⟨sid, sname, sargs⟩ := s
  simp [extendSlot, fieldConcat, String.join, strAppend_empty]

theorem fieldConcat_cons (f : Fragment) (l : List Fragment)
    (g : Fragment → Option String) :
    fieldConcat (f :: l) g = (g f).getD "" ++ fieldConcat l g := by
  simp only [fieldConcat, List.map_cons, strJoin_cons]

theorem mergeSlot_eq_extendSlot (s : Slot) (f : Fragment) :
    mergeSlot s f = extendSlot s [f] := by
  obtain ⟨sid, sname, sargs⟩ := s
  obtain ⟨idx, fid, fname, fargs⟩ := f
  simp only [extendSlot, fieldConcat, List.map_cons, List.map_nil, strJoin_singleton]
  unfold mergeSlot
  cases fid <;> cases fname <;> cases fargs <;>
    simp only [] <;> (try split_ifs) <;>
    simp_all [strAppend_empty, Slot.mk.injEq]

theorem extendSlot_cons (s : Slot) (f : Fragment) (l : List Fragment) :
    extendSlot (mergeSlot s f) l = extendSlot s (f :: l) := by
  rw [mergeSlot_eq_extendSlot]
  obtain ⟨sid, sname, sargs⟩ := s
  simp only [extendSlot, fieldConcat_cons, fieldConcat, List.map_cons, List.map_nil,
    strJoin_singleton, String.append_assoc]
  simp [strJoin_cons]

theorem applyDeltas_lookup (frags : List Fragment) : ∀ (buf : TCBuf) (i : Nat),
    lookupSlot (processToolCallsDeltas buf frags) i =
      (match lookupSlot buf i, frags.filter (fun f => f.index = i) with
       | none, [] => none
       | none, l => some (extendSlot emptySlot l)
       | some s, l => some (extendSlot s l)) := by
  induction frags with
  | nil =>
    intro buf i
    simp only [processToolCallsDeltas, List.foldl_nil, List.filter_nil]
    cases lookupSlot buf i with
    | none => rfl
    | some s => simp [extendSlot_nil]
  | cons f l ih =>
    intro buf i
    have step := ih (applyFragment buf f) i
    simp only [processToolCallsDeltas, List.foldl_cons] at step ⊢
    rw [step, List.filter_cons]
    by_cases hfi : f.index = i
    · rw [applyFragment, lookupSlot_setSlot, if_pos hfi, hfi]
      simp only [hfi, decide_eq_true_eq, if_pos]
      cases hbuf : lookupSlot buf i with
      | none => simp [hbuf, extendSlot_cons]
      | some s => simp [hbuf, extendSlot_cons]
    · rw [applyFragment, lookupSlot_setSlot, if_neg (by
        intro he; exact hfi he)]
      simp [hfi]

theorem filter_map_eq_keyed (l : TCBuf) :
    ((l.map fun p =>
        ({ id := p.2.id,
           function := { name := p.2.name, arguments := p.2.arguments } } : ToolCall)).filter
      fun tc => tc.id ≠ "" && tc.function.name ≠ "") =
      (l.filterMap fun p =>
        if p.2.id ≠ "" ∧ p.2.name ≠ "" then
          some (p.1, ({ id := p.2.id,
                        function := { name := p.2.name, arguments := p.2.arguments } } : ToolCall))
        else none).map Prod.snd := by
  induction l with
  | nil => rfl
  | cons p rest ih =>
    by_cases hc : p.2.id ≠ "" ∧ p.2.name ≠ ""
    · simp [List.filter_cons, List.filterMap_cons, hc, hc.1, hc.2]
      simpa using ih
    · rcases not_and_or.mp hc with h | h <;>
      · have h' := not_not.mp h
        simp [List.filter_cons, List.filterMap_cons, hc, h']
        simpa using ih

theorem build_eq_keyed (buf : TCBuf) :
    buildToolCallsFromBuffer buf = (assembledKeyed buf).map Prod.snd := by
  unfold buildToolCallsFromBuffer assembledKeyed
  exact filter_map_eq_keyed (sortByKey buf)

theorem mem_insertByKey (p q : Nat × Slot) (l : TCBuf) :
    q ∈ insertByKey p l ↔ q = p ∨ q ∈ l := by
  induction l with
  | nil => simp [insertByKey]
  | cons r rest ih =>
    unfold insertByKey
    split
    · simp [or_comm, or_assoc, or_left_comm]
    · simp [ih, or_comm, or_assoc, or_left_comm]

theorem mem_sortByKey (q : Nat × Slot) (l : TCBuf) :
    q ∈ sortByKey l ↔ q ∈ l := by
  induction l with
  | nil => simp [sortByKey]
  | cons r rest ih => simp [sortByKey, mem_insertByKey, ih]

theorem pairwise_insertByKey (p : Nat × Slot) (l : TCBuf)
    (h : List.Pairwise (fun a b => a.1 ≤ b.1) l) :
    List.Pairwise (fun a b => a.1 ≤ b.1) (insertByKey p l) := by
  induction l with
  | nil => simp [insertByKey]
  | cons r rest ih =>
    rw [List.pairwise_cons] at h
    unfold insertByKey
    split
    · rename_i hle
      rw [List.pairwise_cons]
      refine ⟨?_, List.pairwise_cons.mpr h⟩
      intro q hq
      rcases List.mem_cons.mp hq with hq | hq
      · exact hq ▸ hle
      · exact le_trans hle (h.1 q hq)
    · rename_i hgt
      rw [List.pairwise_cons]
      refine ⟨?_, ih h.2⟩
      intro q hq
      rcases (mem_insertByKey p q rest).mp hq with hq | hq
      · exact hq ▸ le_of_not_le hgt
      · exact h.1 q hq

theorem pairwise_sortByKey (l : TCBuf) :
    List.Pairwise (fun a b => a.1 ≤ b.1) (sortByKey l) := by
  induction l with
  | nil => exact List.Pairwise.nil
  | cons r rest ih => exact pairwise_insertByKey r (sortByKey rest) ih

theorem insertByKey_perm (p : Nat × Slot) (l : TCBuf) :
    List.Perm (insertByKey p l) (p :: l) := by
  induction l with
  | nil => exact List.Perm.refl _
  | cons r rest ih =>
    unfold insertByKey
    split
    · exact List.Perm.refl _
    · exact List.Perm.trans (List.Perm.cons r ih) (List.Perm.swap p r rest)

theorem sortByKey_perm (l : TCBuf) : List.Perm (sortByKey l) l := by
  induction l with
  | nil => exact List.Perm.refl _
  | cons r rest ih =>
    exact List.Perm.trans (insertByKey_perm r (sortByKey rest)) (List.Perm.cons r ih)

theorem mem_keys_setSlot (i : Nat) (s : Slot) (j : Nat) : ∀ buf : TCBuf,
    j ∈ (setSlot buf i s).map Prod.fst → j = i ∨ j ∈ buf.map Prod.fst := by
  intro buf
  induction buf with
  | nil =>
    intro h
    simp [setSlot] at h
    exact Or.inl h
  | cons p rest ih =>
    obtain ⟨k, s'⟩ := p
    by_cases hk : k = i
    · rw [show setSlot ((k, s') :: rest) i s = (k, s) :: rest by simp [setSlot, hk]]
      intro h
      simp only [List.map_cons, List.mem_cons] at h ⊢
      exact Or.inr h
    · rw [show setSlot ((k, s') :: rest) i s = (k, s') :: setSlot rest i s by
        simp [setSlot, hk]]
      intro h
      simp only [List.map_cons, List.mem_cons] at h ⊢
      rcases h with h | h
      · exact Or.inr (Or.inl h)
      · rcases ih h with h2 | h2
        · exact Or.inl h2
        · exact Or.inr (Or.inr h2)

theorem nodup_keys_setSlot (i : Nat) (s : Slot) : ∀ buf : TCBuf,
    (buf.map Prod.fst).Nodup → ((setSlot buf i s).map Prod.fst).Nodup := by
  intro buf
  induction buf with
  | nil => intro _; simp [setSlot]
  | cons p rest ih =>
    obtain ⟨k, s'⟩ := p
    intro h
    simp only [List.map_cons, List.nodup_cons] at h
    by_cases hk : k = i
    · rw [show setSlot ((k, s') :: rest) i s = (k, s) :: rest by simp [setSlot, hk]]
      simpa using h
    · rw [show setSlot ((k, s') :: rest) i s = (k, s') :: setSlot rest i s by
        simp [setSlot, hk]]
      simp only [List.map_cons, List.nodup_cons]
      refine ⟨?_, ih h.2⟩
      intro hmem
      rcases mem_keys_setSlot i s k rest hmem with h' | h'
      · exact hk h'
      · exact h.1 h'

theorem nodup_keys_applyDeltas (frags : List Fragment) : ∀ buf : TCBuf,
    (buf.map Prod.fst).Nodup →
    ((processToolCallsDeltas buf frags).map Prod.fst).Nodup := by
  induction frags with
  | nil => intro buf h; exact h
  | cons f l ih =>
    intro buf h
    simp only [processToolCallsDeltas, List.foldl_cons] at ih ⊢
    exact ih (applyFragment buf f) (nodup_keys_setSlot f.index _ buf h)

theorem pairwise_keys_filterMap {R : Nat → Nat → Prop}
    (f : Nat × Slot → Option (Nat × ToolCall))
    (hf : ∀ p q, f p = some q → q.1 = p.1) :
    ∀ l : TCBuf, List.Pairwise (fun a b => R a.1 b.1) l →
      List.Pairwise (fun a b => R a.1 b.1) (l.filterMap f) := by
  intro l
  induction l with
  | nil => intro _; simp
  | cons p rest ih =>
    intro h
    rw [List.pairwise_cons] at h
    rw [List.filterMap_cons]
    cases hp : f p with
    | none => exact ih h.2
    | some q =>
      rw [List.pairwise_cons]
      refine ⟨?_, ih h.2⟩
      intro z hz
      rcases List.mem_filterMap.mp hz with ⟨w, hw, hfw⟩
      rw [hf p q hp, hf w z hfw]
      exact h.1 w hw

theorem assembledKeyed_key_of (p : Nat × Slot) (q : Nat × ToolCall)
    (h : (if p.2.id ≠ "" ∧ p.2.name ≠ "" then
        some (p.1, ({ id := p.2.id,
                      function := { name := p.2.name, arguments := p.2.arguments } } : ToolCall))
      else none) = some q) : q.1 = p.1 := by
  by_cases hc : p.2.id ≠ "" ∧ p.2.name ≠ ""
  · rw [if_pos hc] at h
    cases h
    rfl
  · rw [if_neg hc] at h
    cases h

theorem assembledKeyed_strict_sorted (frags : List Fragment) :
    List.Pairwise (fun a b => a.1 < b.1)
      (assembledKeyed (processToolCallsDeltas [] frags)) := by
  have hnd : (((processToolCallsDeltas [] frags).map Prod.fst)).Nodup :=
    nodup_keys_applyDeltas frags [] (by simp)
  have hnd2 : (((sortByKey (processToolCallsDeltas [] frags)).map Prod.fst)).Nodup :=
    (((sortByKey_perm _).map Prod.fst).nodup_iff).mpr hnd
  have hle := pairwise_sortByKey (processToolCallsDeltas [] frags)
  have hne : List.Pairwise (fun a b : Nat × Slot => a.1 ≠ b.1)
      (sortByKey (processToolCallsDeltas [] frags)) := List.pairwise_map.mp hnd2
  have hlt : List.Pairwise (fun a b : Nat × Slot => a.1 < b.1)
      (sortByKey (processToolCallsDeltas [] frags)) :=
    (hle.and hne).imp fun h => lt_of_le_of_ne h.1 h.2
  exact pairwise_keys_filterMap _ assembledKeyed_key_of _ hlt

theorem mem_buildToolCalls (buf : TCBuf) (tc : ToolCall) :
    tc ∈ buildToolCallsFromBuffer buf ↔
      ∃ k : Nat, ∃ s : Slot, (k, s) ∈ buf ∧ s.id ≠ "" ∧ s.name ≠ "" ∧
        tc = { id := s.id, function := { name := s.name, arguments := s.arguments } } := by
  unfold buildToolCallsFromBuffer
  rw [List.mem_filter]
  constructor
  · rintro ⟨hm, hp⟩
    rcases List.mem_map.mp hm with ⟨p, hpmem, rfl⟩
    rw [mem_sortByKey] at hpmem
    simp only [decide_eq_true_eq, Bool.and_eq_true] at hp
    exact ⟨p.1, p.2, hpmem, by simpa using hp.1, by simpa using hp.2, rfl⟩
  · rintro ⟨k, s, hmem, hid, hname, rfl⟩
    exact ⟨List.mem_map.mpr ⟨(k, s), (mem_sortByKey _ _).mpr hmem, rfl⟩,
      by simp [hid, hname]⟩

theorem splitLines_cons_nl (x : List Char) :
    splitLines ('\n' :: x) = ([] :: (splitLines x).1, (splitLines x).2) := rfl

theorem splitLines_cons_ne (c : Char) (x : List Char) (hc : ¬ c = '\n') :
    splitLines (c :: x) =
      (match (splitLines x).1 with
       | [] => ([], c :: (splitLines x).2)
       | l :: ls => ((c :: l) :: ls, (splitLines x).2)) := by
  simp only [splitLines]
  rw [if_neg hc]

theorem splitLines_snd_no_nl (x : List Char) :
    ((splitLines x).2.all fun c => !(c = '\n')) = true := by
  induction x with
  | nil => rfl
  | cons c rest ih =>
    by_cases hc : c = '\n'
    · subst hc
      rw [splitLines_cons_nl]
      exact ih
    · rw [splitLines_cons_ne c rest hc]
      cases hp : (splitLines rest).1 with
      | nil =>
        simp only [List.all_cons, Bool.and_eq_true]
        exact ⟨by simpa using hc, ih⟩
      | cons l ls => exact ih

theorem splitLines_fst_nil (x : List Char) (h : (splitLines x).1 = []) :
    (splitLines x).2 = x := by
  induction x with
  | nil => rfl
  | cons c rest ih =>
    by_cases hc : c = '\n'
    · subst hc
      rw [splitLines_cons_nl] at h
      exact absurd h (by simp)
    · rw [splitLines_cons_ne c rest hc] at h ⊢
      cases hp : (splitLines rest).1 with
      | nil =>
        dsimp only []
        rw [ih hp]
      | cons l ls =>
        rw [hp] at h
        exact absurd h (by simp)

theorem splitLines_all_no_nl (b : List Char)
    (h : (b.all fun c => !(c = '\n')) = true) : splitLines b = ([], b) := by
  induction b with
  | nil => rfl
  | cons c rest ih =>
    simp only [List.all_cons, Bool.and_eq_true] at h
    have hc : ¬ c = '\n' := by simpa using h.1
    rw [splitLines_cons_ne c rest hc, ih h.2]

theorem splitLines_append (a : List Char) : ∀ b : List Char,
    splitLines (a ++ b) =
      ((splitLines a).1 ++ (splitLines ((splitLines a).2 ++ b)).1,
       (splitLines ((splitLines a).2 ++ b)).2) := by
  induction a with
  | nil => intro b; simp [splitLines]
  | cons c a' ih =>
    intro b
    by_cases hc : c = '\n'
    · subst hc
      show splitLines ('\n' :: (a' ++ b)) = _
      rw [splitLines_cons_nl, splitLines_cons_nl, ih b]
      rfl
    · show splitLines (c :: (a' ++ b)) = _
      rw [splitLines_cons_ne c (a' ++ b) hc, splitLines_cons_ne c a' hc]
      cases hp : (splitLines a').1 with
      | nil =>
        have h2 := splitLines_fst_nil a' hp
        simp only [hp, h2, List.nil_append]
        rw [List.cons_append, splitLines_cons_ne c (a' ++ b) hc]
      | cons l ls =>
        rw [ih b, hp]
        simp [List.cons_append]

theorem contentsOfEvs_append (a b : List Ev) :
    contentsOfEvs (a ++ b) = contentsOfEvs a ++ contentsOfEvs b := by
  simp [contentsOfEvs, List.filterMap_append]

theorem contentsOfEvs_no_content (evs : List Ev)
    (hevs : ∀ e ∈ evs, ∃ l, e = Ev.toolCalls l) : contentsOfEvs evs = [] := by
  induction evs with
  | nil => rfl
  | cons e rest ihe =>
    rcases hevs e (by simp) with ⟨l, rfl⟩
    exact ihe fun x hx => hevs x (List.mem_cons_of_mem _ hx)

theorem processChunk_contents (j : Json) (buf : TCBuf) :
    contentsOfEvs (processChunk j buf).2 = chunkContents j := by
  unfold processChunk chunkContents
  cases hc : choice0 j with
  | none => rfl
  | some choice =>
    dsimp only []
    rw [contentsOfEvs_append]
    have hfin : ∀ b : TCBuf, contentsOfEvs (processChunkFinishEvs choice b) = [] := by
      intro b
      apply contentsOfEvs_no_content
      intro e he
      unfold processChunkFinishEvs at he
      split at he
      · split at he
        · dsimp only [] at he
          split at he
          · exact ⟨_, by simpa using he⟩
          · simp at he
        · simp at he
      · simp at he
    rw [hfin]
    split
    · simp [contentsOfEvs, contentOf]
    · rfl

theorem procLines_batchSummary (lines : List (List Char)) : ∀ tc : TCBuf,
    contentsOfEvs (procLines tc lines).2.1 = (batchSummary lines).1 ∧
    ((procLines tc lines).2.2 = none ↔ (batchSummary lines).2 ≠ BatchEnd.failed) := by
  induction lines with
  | nil => intro tc; exact ⟨rfl, by simp [procLines, batchSummary]⟩
  | cons line rest ih =>
    intro tc
    by_cases h1 : isDataLine line = true
    · by_cases h2 : line.drop 6 = sentinelPayload
      · have hcl : lineClass line = LineClass.sentinel := by
          unfold lineClass
          rw [if_pos h1, if_pos h2]
        have hpl : procLines tc (line :: rest) = (tc, [], none) := by
          simp only [procLines]
          rw [if_pos h1, if_pos h2]
        rw [hpl]
        simp [batchSummary, hcl, contentsOfEvs]
      · by_cases h3 : (line.drop 6).head? = some lbrace
        · cases hp : parseChunk (line.drop 6) with
          | error e =>
            have hcl : lineClass line = LineClass.fatal e := by
              unfold lineClass
              rw [if_pos h1, if_neg h2, if_pos h3, hp]
            have hpl : procLines tc (line :: rest) = (tc, [Ev.error e], some e) := by
              simp only [procLines]
              rw [if_pos h1, if_neg h2, if_pos h3, hp]
            rw [hpl]
            simp [batchSummary, hcl, contentsOfEvs, contentOf]
          | ok j =>
            have hcl : lineClass line = LineClass.normal (chunkContents j) := by
              unfold lineClass
              rw [if_pos h1, if_neg h2, if_pos h3, hp]
            have hpl : procLines tc (line :: rest) =
                ((procLines (processChunk j tc).1 rest).1,
                 (processChunk j tc).2 ++ (procLines (processChunk j tc).1 rest).2.1,
                 (procLines (processChunk j tc).1 rest).2.2) := by
              simp only [procLines]
              rw [if_pos h1, if_neg h2, if_pos h3, hp]
            rw [hpl]
            constructor
            · dsimp only []
              rw [contentsOfEvs_append, processChunk_contents,
                (ih (processChunk j tc).1).1]
              simp [batchSummary, hcl]
            · have := (ih (processChunk j tc).1).2
              simpa [batchSummary, hcl] using this
        · have hcl : lineClass line = LineClass.ignored := by
            unfold lineClass
            rw [if_pos h1, if_neg h2, if_neg h3]
          have hpl : procLines tc (line :: rest) = procLines tc rest := by
            simp only [procLines]
            rw [if_pos h1, if_neg h2, if_neg h3]
          rw [hpl]
          have hbs : batchSummary (line :: rest) = batchSummary rest := by
            simp only [batchSummary]
            rw [hcl]
          rw [hbs]
          exact ih tc
    · have hcl : lineClass line = LineClass.ignored := by
        unfold lineClass
        rw [if_neg h1]
      have hpl : procLines tc (line :: rest) = procLines tc rest := by
        simp only [procLines]
        rw [if_neg h1]
      rw [hpl]
      have hbs : batchSummary (line :: rest) = batchSummary rest := by
        simp only [batchSummary]
        rw [hcl]
      rw [hbs]
      exact ih tc

theorem procLines_all_non_data (lines : List (List Char))
    (h : (lines.all fun l => !isDataLine l) = true) : ∀ tc : TCBuf,
    procLines tc lines = (tc, [], none) := by
  induction lines with
  | nil => intro tc; rfl
  | cons line rest ih =>
    simp only [List.all_cons, Bool.and_eq_true] at h
    intro tc
    unfold procLines
    rw [if_neg (by simpa using h.1)]
    exact ih h.2 tc

theorem batchSummary_ran_contentsUpTo (lines : List (List Char)) (L2 : List (List Char))
    (h : (batchSummary lines).2 = BatchEnd.ran) :
    contentsUpTo (lines ++ L2) = (batchSummary lines).1 ++ contentsUpTo L2 := by
  induction lines with
  | nil => rfl
  | cons line rest ih =>
    simp only [batchSummary, List.cons_append, List.append_eq, contentsUpTo] at h ⊢
    cases hcl : lineClass line with
    | ignored =>
      rw [hcl] at h
      exact ih h
    | sentinel =>
      rw [hcl] at h
      simp at h
    | fatal e =>
      rw [hcl] at h
      simp at h
    | normal cs =>
      rw [hcl] at h
      dsimp only [] at h ⊢
      rw [ih h, List.append_assoc]

theorem batchSummary_stop_contentsUpTo (lines : List (List Char)) (L2 : List (List Char))
    (h : ¬ (batchSummary lines).2 = BatchEnd.ran) :
    contentsUpTo (lines ++ L2) = (batchSummary lines).1 := by
  induction lines with
  | nil => exact absurd rfl h
  | cons line rest ih =>
    simp only [batchSummary, List.cons_append, List.append_eq, contentsUpTo] at h ⊢
    cases hcl : lineClass line with
    | ignored =>
      rw [hcl] at h
      exact ih h
    | sentinel => rfl
    | fatal e => rfl
    | normal cs =>
      rw [hcl] at h
      dsimp only [] at h ⊢
      rw [ih h]

theorem noDataAfterDone_ran (lines : List (List Char)) (L2 : List (List Char))
    (hnd : noDataAfterDone (lines ++ L2) = true)
    (h : (batchSummary lines).2 = BatchEnd.ran) :
    noDataAfterDone L2 = true := by
  induction lines with
  | nil => exact hnd
  | cons line rest ih =>
    simp only [batchSummary, List.cons_append, List.append_eq, noDataAfterDone] at h hnd
    cases hcl : lineClass line with
    | ignored =>
      rw [hcl] at h hnd
      exact ih hnd h
    | sentinel =>
      rw [hcl] at h
      simp at h
    | fatal e =>
      rw [hcl] at h
      simp at h
    | normal cs =>
      rw [hcl] at h hnd
      dsimp only [] at h hnd
      exact ih hnd h

theorem noDataAfterDone_stopped (lines : List (List Char)) (L2 : List (List Char))
    (hnd : noDataAfterDone (lines ++ L2) = true)
    (h : (batchSummary lines).2 = BatchEnd.stopped) :
    (L2.all fun l => !isDataLine l) = true := by
  induction lines with
  | nil => simp [batchSummary] at h
  | cons line rest ih =>
    simp only [batchSummary, List.cons_append, List.append_eq, noDataAfterDone] at h hnd
    cases hcl : lineClass line with
    | ignored =>
      rw [hcl] at h hnd
      exact ih hnd h
    | sentinel =>
      rw [hcl] at hnd
      rw [List.all_append] at hnd
      exact ((Bool.and_eq_true _ _).mp hnd).2
    | fatal e =>
      rw [hcl] at h
      simp at h
    | normal cs =>
      rw [hcl] at h hnd
      dsimp only [] at h hnd
      exact ih hnd h

theorem processStream_cons_ok (st : PState) (c : List Char) (cs : List (List Char))
    (tcb' : TCBuf) (evs : List Ev)
    (h : procLines st.tcbuf (splitLines (st.buffer ++ c)).1 = (tcb', evs, none)) :
    processStream st (c :: cs) =
      ((processStream { buffer := (splitLines (st.buffer ++ c)).2, tcbuf := tcb' } cs).1,
       evs ++ (processStream { buffer := (splitLines (st.buffer ++ c)).2, tcbuf := tcb' } cs).2.1,
       (processStream { buffer := (splitLines (st.buffer ++ c)).2, tcbuf := tcb' } cs).2.2) := by
  simp only [processStream, procChunkStep, h]

theorem processStream_cons_fail (st : PState) (c : List Char) (cs : List (List Char))
    (tcb' : TCBuf) (evs : List Ev) (e : String)
    (h : procLines st.tcbuf (splitLines (st.buffer ++ c)).1 = (tcb', evs, some e)) :
    processStream st (c :: cs) =
      ({ buffer := (splitLines (st.buffer ++ c)).2, tcbuf := tcb' },
       evs ++ [Ev.error ("Stream processing failed")],
       some ("Stream processing failed")) := by
  simp only [processStream, procChunkStep, h]

theorem processStream_no_data (cs : List (List Char)) : ∀ (b : List Char) (tc : TCBuf),
    (b.all fun ch => !(ch = '\n')) = true →
    ((splitLines (b ++ cs.flatten)).1.all fun l => !isDataLine l) = true →
    contentsOfEvs (processStream { buffer := b, tcbuf := tc } cs).2.1 = [] := by
  induction cs with
  | nil => intro b tc _ _; rfl
  | cons c cs' ih =>
    intro b tc _hb hall
    have htot : b ++ (c :: cs').flatten = (b ++ c) ++ cs'.flatten := by
      simp [List.append_assoc]
    rw [htot, splitLines_append (b ++ c) cs'.flatten] at hall
    dsimp only [] at hall
    rw [List.all_append] at hall
    obtain ⟨h1, h2⟩ := (Bool.and_eq_true _ _).mp hall
    have hpl := procLines_all_non_data (splitLines (b ++ c)).1 h1 tc
    rw [processStream_cons_ok { buffer := b, tcbuf := tc } c cs' tc [] hpl]
    dsimp only []
    exact ih (splitLines (b ++ c)).2 tc (splitLines_snd_no_nl _) h2

theorem processStream_contents_canonical (cs : List (List Char)) :
    ∀ (b : List Char) (tc : TCBuf),
    (b.all fun ch => !(ch = '\n')) = true →
    noDataAfterDone (splitLines (b ++ cs.flatten)).1 = true →
    contentsOfEvs (processStream { buffer := b, tcbuf := tc } cs).2.1 =
      contentsUpTo (splitLines (b ++ cs.flatten)).1 := by
  induction cs with
  | nil =>
    intro b tc hb _
    rw [show (([] : List (List Char)).flatten) = [] from rfl, List.append_nil,
      splitLines_all_no_nl b hb]
    rfl
  | cons c cs' ih =>
    intro b tc hb hnd
    have htot : b ++ (c :: cs').flatten = (b ++ c) ++ cs'.flatten := by
      simp [List.append_assoc]
    rw [htot, splitLines_append (b ++ c) cs'.flatten] at hnd ⊢
    dsimp only [] at hnd ⊢
    obtain ⟨hcontents, hout⟩ := procLines_batchSummary (splitLines (b ++ c)).1 tc
    cases hend : (batchSummary (splitLines (b ++ c)).1).2 with
    | ran =>
      have hnone : (procLines tc (splitLines (b ++ c)).1).2.2 = none := by
        rw [hout, hend]
        simp
      have hq : procLines tc (splitLines (b ++ c)).1 =
          ((procLines tc (splitLines (b ++ c)).1).1,
           (procLines tc (splitLines (b ++ c)).1).2.1, none) := by
        rw [← hnone]
      rw [processStream_cons_ok { buffer := b, tcbuf := tc } c cs' _ _ hq]
      dsimp only []
      rw [contentsOfEvs_append, hcontents,
        batchSummary_ran_contentsUpTo _ _ hend,
        ih (splitLines (b ++ c)).2 _ (splitLines_snd_no_nl _)
          (noDataAfterDone_ran _ _ hnd hend)]
    | stopped =>
      have hnone : (procLines tc (splitLines (b ++ c)).1).2.2 = none := by
        rw [hout, hend]
        simp
      have hq : procLines tc (splitLines (b ++ c)).1 =
          ((procLines tc (splitLines (b ++ c)).1).1,
           (procLines tc (splitLines (b ++ c)).1).2.1, none) := by
        rw [← hnone]
      rw [processStream_cons_ok { buffer := b, tcbuf := tc } c cs' _ _ hq]
      dsimp only []
      rw [contentsOfEvs_append, hcontents,
        batchSummary_stop_contentsUpTo _ _ (by rw [hend]; simp),
        processStream_no_data cs' (splitLines (b ++ c)).2 _ (splitLines_snd_no_nl _)
          (noDataAfterDone_stopped _ _ hnd hend),
        List.append_nil]
    | failed =>
      have hsome : ¬ (procLines tc (splitLines (b ++ c)).1).2.2 = none := by
        intro hcon
        have := hout.mp hcon
        exact this hend
      cases he : (procLines tc (splitLines (b ++ c)).1).2.2 with
      | none => exact absurd he hsome
      | some e =>
        have hq : procLines tc (splitLines (b ++ c)).1 =
            ((procLines tc (splitLines (b ++ c)).1).1,
             (procLines tc (splitLines (b ++ c)).1).2.1, some e) := by
          rw [← he]
        rw [processStream_cons_fail { buffer := b, tcbuf := tc } c cs' _ _ e hq]
        dsimp only []
        rw [contentsOfEvs_append, hcontents,
          batchSummary_stop_contentsUpTo _ _ (by rw [hend]; simp),
          show contentsOfEvs [Ev.error ("Stream processing failed")] = [] from rfl,
          List.append_nil]

/-- Claim C5 (corrected): chunk-boundary invariance holds only for
responses in which no data:-prefixed line follows a data: [DONE] line
among the complete lines: under that proviso, delivering the response in
any list of chunks produces the same ordered sequence of onContent
values as delivering it unsplit (both equal the canonical per-line
content sequence).  Without the proviso the property fails, because the
sentinel only short-circuits the processBuffer batch it arrives in (see
the counterexample).  Chunks are modelled at character level: the
streaming TextDecoder reassembles a multibyte character split across
chunk boundaries before the processor sees it. -/
theorem c5_chunk_boundary_invariance (s : List Char) (cs : List (List Char))
    (hjoin : cs.flatten = s)
    (hnd : noDataAfterDone (splitLines s).1 = true) :
    contentsOfEvs (processStream resetState cs).2.1 =
      contentsOfEvs (processStream resetState [s]).2.1 := by
  subst hjoin
  have hflat : (([cs.flatten] : List (List Char)).flatten) = cs.flatten := by simp
  have h1 := processStream_contents_canonical cs [] [] rfl
    (by simpa using hnd)
  have h2 := processStream_contents_canonical [cs.flatten] [] [] rfl
    (by rw [hflat]; simpa using hnd)
  rw [show resetState = { buffer := ([] : List Char), tcbuf := ([] : TCBuf) } from rfl,
    h1, h2, hflat]

/-- Witness for C5 (amended) at the specification's own example: the
response split in the middle of the JSON token "content" yields the
same single delta Hello as the unsplit response. -/
theorem c5_chunk_boundary_invariance_witness :
    ([strL ("data: \x7b\"choices\":[\x7b\"delta\":\x7b\"con"),
      strL ("tent\":\"Hello\"\x7d\x7d]\x7d\ndata: [DONE]\n")] :
        List (List Char)).flatten =
      strL ("data: \x7b\"choices\":[\x7b\"delta\":\x7b\"content\":\"Hello\"\x7d\x7d]\x7d\ndata: [DONE]\n") ∧
    noDataAfterDone (splitLines
      (strL ("data: \x7b\"choices\":[\x7b\"delta\":\x7b\"content\":\"Hello\"\x7d\x7d]\x7d\ndata: [DONE]\n"))).1 = true ∧
    contentsOfEvs (processStream resetState
      [strL ("data: \x7b\"choices\":[\x7b\"delta\":\x7b\"con"),
       strL ("tent\":\"Hello\"\x7d\x7d]\x7d\ndata: [DONE]\n")]).2.1 =
      contentsOfEvs (processStream resetState
        [strL ("data: \x7b\"choices\":[\x7b\"delta\":\x7b\"content\":\"Hello\"\x7d\x7d]\x7d\ndata: [DONE]\n")]).2.1 :=
  ⟨rfl, rfl,
    c5_chunk_boundary_invariance
      (strL ("data: \x7b\"choices\":[\x7b\"delta\":\x7b\"content\":\"Hello\"\x7d\x7d]\x7d\ndata: [DONE]\n"))
      [strL ("data: \x7b\"choices\":[\x7b\"delta\":\x7b\"con"),
       strL ("tent\":\"Hello\"\x7d\x7d]\x7d\ndata: [DONE]\n")]
      rfl rfl⟩

/-- Counterexample for C5 as stated: the same overall response bytes
(a sentinel line followed by a content line) delivered unsplit produce
no onContent value, while the split delivery produces the value X: the
claimed invariance over all responses and all chunkings is false. -/
theorem c5_counterexample :
    ([lineChunk sentinelLine, lineChunk contentXLine] : List (List Char)).flatten =
      lineChunk sentinelLine ++ lineChunk contentXLine ∧
    contentsOfEvs (processStream resetState
      [lineChunk sentinelLine ++ lineChunk contentXLine]).2.1 = [] ∧
    contentsOfEvs (processStream resetState
      [lineChunk sentinelLine, lineChunk contentXLine]).2.1 = ["X"] :=
  ⟨by simp, rfl, rfl⟩

/-- Claim C6 (confirmed): the accumulator merges every fragment into the
slot keyed by its integer index — after folding any fragment list, the
slot at index i is the prior slot (an absent slot starting from empty
strings) with each sub-field extended by the concatenation, in order, of
that sub-field over the fragments with index i (empty or absent
sub-fields contribute nothing); assembly returns exactly the slots whose
merged id and name are both non-empty (membership equivalence), mapped
to ToolCall values in strictly ascending slot-index order (the keyed
view is Pairwise <), dropping the rest with no error; and the
specification's own reassembly example produces exactly one ToolCall
id call_1 / name get_page_text / arguments \x7b\x7d. -/
theorem c6_accumulator_merge_assemble :
    (∀ (frags : List Fragment) (buf : TCBuf) (i : Nat),
      lookupSlot (processToolCallsDeltas buf frags) i =
        (match lookupSlot buf i, frags.filter (fun f => f.index = i) with
         | none, [] => none
         | none, l => some (extendSlot emptySlot l)
         | some s, l => some (extendSlot s l))) ∧
    (∀ buf : TCBuf, buildToolCallsFromBuffer buf = (assembledKeyed buf).map Prod.snd) ∧
    (∀ frags : List Fragment,
      List.Pairwise (fun a b => a.1 < b.1)
        (assembledKeyed (processToolCallsDeltas [] frags))) ∧
    (∀ (buf : TCBuf) (tc : ToolCall),
      tc ∈ buildToolCallsFromBuffer buf ↔
        ∃ k : Nat, ∃ s : Slot, (k, s) ∈ buf ∧ s.id ≠ "" ∧ s.name ≠ "" ∧
          tc = { id := s.id, function := { name := s.name, arguments := s.arguments } }) ∧
    buildToolCallsFromBuffer (processToolCallsDeltas []
        [{ index := 0, id := some "call_1", name := some "get_page", arguments := none },
         { index := 0, id := none, name := some "_text", arguments := some "\x7b\x7d" }]) =
      [{ id := "call_1", function := { name := "get_page_text", arguments := "\x7b\x7d" } }] :=
  ⟨applyDeltas_lookup, build_eq_keyed, assembledKeyed_strict_sorted, mem_buildToolCalls, rfl⟩

set_option maxRecDepth 200000 in
/-- Claim C4 (corrected): a non-success HTTP status makes the turn fail
with an ApiError carrying the status code before any stream processing:
no content delta is emitted and onComplete never fires — but the
ApiError is NOT surfaced via onError: sendMessage throws it (the promise
rejects) and no callback at all is invoked.  onError receives the
ApiError only when the failing response belongs to a continuation round
issued from inside the wrapped onToolCalls callback, whose catch routes
the rejection into onError (the closed conjuncts: a 500 on the
continuation round of a tool turn surfaces HTTP 500: Server Error
through onError while the turn's own promise still resolves). -/
theorem c4_status_failure (env : Nat → Except String String) (fuel : Nat)
    (r : Round) (rest : List Round) (msgs : List Msg) (st : PState)
    (h : ¬(200 ≤ r.status ∧ r.status < 300)) :
    runTurn env (fuel + 1) (r :: rest) msgs st =
      { trace := [], state := st, remaining := rest,
        outcome := Except.error { message := httpErrMsg r, statusCode := some r.status } } ∧
    (runTurn envAllOk 3 [pageToolRound, serverErrorRound] [] resetState).trace =
      [Ev.complete, Ev.error ("HTTP 500: Server Error")] ∧
    (runTurn envAllOk 3 [pageToolRound, serverErrorRound] [] resetState).outcome =
      Except.ok () := by
  refine ⟨?_, rfl, rfl⟩
  unfold runTurn runAux
  rw [if_neg h]

/-- Witness for C4 at the concrete 500 response: the turn yields no
event at all and rejects with the status-carrying ApiError. -/
theorem c4_status_failure_witness :
    ¬(200 ≤ serverErrorRound.status ∧ serverErrorRound.status < 300) ∧
    runTurn envAllOk 1 [serverErrorRound] [] resetState =
      { trace := [], state := resetState, remaining := [],
        outcome := Except.error
          { message := httpErrMsg serverErrorRound, statusCode := some serverErrorRound.status } } :=
  ⟨by decide,
    (c4_status_failure envAllOk 0 serverErrorRound [] [] resetState (by decide)).1⟩

/-- Counterexample for C4 as stated: the 500 response produces an empty
trace — onError never fires, so the ApiError is not surfaced through
onError (it is the rejection value of sendMessage instead). -/
theorem c4_counterexample :
    (runTurn envAllOk 1 [serverErrorRound] [] resetState).trace = [] ∧
    (runTurn envAllOk 1 [serverErrorRound] [] resetState).outcome =
      Except.error { message := "HTTP 500: Server Error", statusCode := some 500 } :=
  ⟨rfl, rfl⟩

set_option maxRecDepth 200000 in
/-- Claim C1 (corrected): onComplete/onError do NOT fire exactly once
per sendMessage invocation.  onComplete fires once per round whose
stream is read to its end without error, so a turn containing one
tool-dispatch round fires onComplete twice (once when the tool round's
stream ends, once when the continuation round's stream ends); and a turn
aborted by an upstream error envelope fires onError twice (once from
processBuffer with the envelope's StreamError, once from processStream
with the wrapping StreamError "Stream processing failed").  Both facts
hold for every tool environment. -/
theorem c1_callback_multiplicity : ∀ env : Nat → Except String String,
    (runTurn env 3 [pageToolRound, finalContentRound] [] resetState).trace =
      [Ev.complete, Ev.content ("Hi"), Ev.complete] ∧
    ((runTurn env 3 [pageToolRound, finalContentRound] [] resetState).trace.count
      Ev.complete) = 2 ∧
    (runTurn env 3 [upstreamErrorRound] [] resetState).trace =
      [Ev.error ("boom"), Ev.error ("Stream processing failed")] ∧
    (runTurn env 3 [upstreamErrorRound] [] resetState).outcome =
      Except.error { message := "Stream processing failed", statusCode := none } := by
  intro env
  refine ⟨rfl, ?_, rfl, rfl⟩
  rfl

set_option maxRecDepth 200000 in
/-- Counterexample for C1 as stated: a turn with exactly one
tool-dispatch round invokes onComplete twice, not exactly once. -/
theorem c1_counterexample :
    ((runTurn envAllOk 3 [pageToolRound, finalContentRound] [] resetState).trace.count
      Ev.complete) = 2 := rfl

/-- Claim C8 (confirmed): a stream line whose payload enters the decoder
(it begins with an opening brace) and parses to a JSON object with a
truthy error field makes decoding fail immediately with the embedded
message (parsed.error.message, with the fallback "OpenAI API Error"):
parseChunk raises that StreamError, the line contributes exactly one
onError invocation and no content or tool-fragment effect (the slot
buffer is untouched), later lines are not processed, and this is
independent of any choices content present in the same line (the object
j is arbitrary). -/
theorem c8_error_envelope_precedence (payload : List Char) (j : Json)
    (h1 : payload.head? = some lbrace)
    (h2 : jsonParse payload = some j)
    (h3 : truthy (getField j ("error")) = true) :
    parseChunk payload = Except.error (errEnvelopeMsg j) ∧
    ∀ (tc : TCBuf) (rest : List (List Char)),
      procLines tc ((dataPrefix ++ payload) :: rest) =
        (tc, [Ev.error (errEnvelopeMsg j)], some (errEnvelopeMsg j)) := by
  have hp : parseChunk payload = Except.error (errEnvelopeMsg j) := by
    unfold parseChunk
    rw [h2]
    simp [h3]
  refine ⟨hp, ?_⟩
  intro tc rest
  simp only [procLines, isDataLine_of_append, drop_dataPrefix, if_true]
  rw [if_neg (ne_sentinel_of_head_lbrace payload h1), if_pos h1, hp]

/-- Witness for C8: the line data: with both an error envelope and a
content delta surfaces only the StreamError boom; the content SHOULD_NOT
is not delivered and no further line runs. -/
theorem c8_error_envelope_precedence_witness :
    (strL ("\x7b\"error\":\x7b\"message\":\"boom\"\x7d,\"choices\":[\x7b\"delta\":\x7b\"content\":\"SHOULD_NOT\"\x7d\x7d]\x7d")).head? = some lbrace ∧
    truthy (getField (Json.obj
      [("error", Json.obj [("message", Json.str "boom")]),
       ("choices", Json.arr [Json.obj [("delta", Json.obj [("content", Json.str "SHOULD_NOT")])]])]) ("error")) = true ∧
    procLines []
        ((dataPrefix ++ strL ("\x7b\"error\":\x7b\"message\":\"boom\"\x7d,\"choices\":[\x7b\"delta\":\x7b\"content\":\"SHOULD_NOT\"\x7d\x7d]\x7d")) ::
          [contentXLine]) =
      ([], [Ev.error ("boom")], some ("boom")) :=
  ⟨rfl, rfl,
    (c8_error_envelope_precedence
        (strL ("\x7b\"error\":\x7b\"message\":\"boom\"\x7d,\"choices\":[\x7b\"delta\":\x7b\"content\":\"SHOULD_NOT\"\x7d\x7d]\x7d"))
        (Json.obj
          [("error", Json.obj [("message", Json.str "boom")]),
           ("choices", Json.arr [Json.obj [("delta", Json.obj [("content", Json.str "SHOULD_NOT")])]])])
        rfl rfl rfl).2 [] [contentXLine]⟩

/-- Claim C2 (corrected): a data:-prefixed line whose payload begins
with an opening brace but is not valid JSON is NOT silently ignored: the
decoder raises StreamError "Invalid JSON in stream", which processBuffer
reports through onError and rethrows, so the remaining lines are not
processed; processStream then reports onError once more with the
wrapping StreamError "Stream processing failed" and the turn is aborted.
(The claim as stated holds in the hook useApi.ts reimplementation but
not in the StreamProcessor the claim cites; the repository's own test
"should handle invalid JSON" expects the abort.) -/
theorem c2_malformed_json_aborts (payload : List Char)
    (h1 : payload.head? = some lbrace)
    (h2 : jsonParse payload = none) :
    (∀ (tc : TCBuf) (rest : List (List Char)),
      procLines tc ((dataPrefix ++ payload) :: rest) =
        (tc, [Ev.error ("Invalid JSON in stream")], some ("Invalid JSON in stream"))) ∧
    (payload.all (fun c => !(c = '\n')) = true →
      ∀ (tc : TCBuf) (cs : List (List Char)),
        processStream { buffer := [], tcbuf := tc }
            (lineChunk (dataPrefix ++ payload) :: cs) =
          ({ buffer := [], tcbuf := tc },
           [Ev.error ("Invalid JSON in stream"), Ev.error ("Stream processing failed")],
           some ("Stream processing failed"))) := by
  have hp : parseChunk payload = Except.error ("Invalid JSON in stream") := by
    unfold parseChunk
    rw [h2]
  have hline : ∀ (tc : TCBuf) (rest : List (List Char)),
      procLines tc ((dataPrefix ++ payload) :: rest) =
        (tc, [Ev.error ("Invalid JSON in stream")], some ("Invalid JSON in stream")) := by
    intro tc rest
    simp only [procLines, isDataLine_of_append, drop_dataPrefix, if_true]
    rw [if_neg (ne_sentinel_of_head_lbrace payload h1), if_pos h1, hp]
  refine ⟨hline, ?_⟩
  intro hnl tc cs
  have hsplit : splitLines ([] ++ lineChunk (dataPrefix ++ payload)) =
      ([dataPrefix ++ payload], []) := by
    rw [List.nil_append, lineChunk]
    exact splitLines_newline_free_line _ (by simpa [dataPrefix, strL] using hnl)
  simp only [processStream, procChunkStep, hsplit, hline]
  rfl

/-- Witness for C2 (amended) at the invalid-JSON payload of the
repository's test suite: the line aborts with onError and the following
content line is never processed. -/
theorem c2_malformed_json_aborts_witness :
    invalidJsonPayload.head? = some lbrace ∧
    jsonParse invalidJsonPayload = none ∧
    invalidJsonPayload.all (fun c => !(c = '\n')) = true ∧
    procLines [] ((dataPrefix ++ invalidJsonPayload) :: [contentXLine]) =
      ([], [Ev.error ("Invalid JSON in stream")], some ("Invalid JSON in stream")) ∧
    processStream { buffer := [], tcbuf := [] }
        (lineChunk (dataPrefix ++ invalidJsonPayload) :: [lineChunk contentXLine]) =
      ({ buffer := [], tcbuf := [] },
       [Ev.error ("Invalid JSON in stream"), Ev.error ("Stream processing failed")],
       some ("Stream processing failed")) :=
  ⟨rfl, rfl, rfl,
    (c2_malformed_json_aborts invalidJsonPayload rfl rfl).1 [] [contentXLine],
    (c2_malformed_json_aborts invalidJsonPayload rfl rfl).2 rfl [] [lineChunk contentXLine]⟩

/-- Counterexample for C2 as stated: the invalid-JSON line of the
repository's own test suite, followed by a well-formed content line.
The claim predicts no callback, continued processing and no abort; the
code fires onError twice, never delivers the content X of the following
line, and aborts the stream. -/
theorem c2_counterexample :
    (processStream resetState
        [lineChunk (dataPrefix ++ invalidJsonPayload), lineChunk contentXLine]).2.1 =
      [Ev.error ("Invalid JSON in stream"), Ev.error ("Stream processing failed")] ∧
    (processStream resetState
        [lineChunk (dataPrefix ++ invalidJsonPayload), lineChunk contentXLine]).2.2 =
      some ("Stream processing failed") :=
  ⟨rfl, rfl⟩

/-- Witness for C10 at a concrete input: a single call to the
unrecognized tool bad_tool yields exactly the Error: Unknown tool
result. -/
theorem c10_executor_total_unknown_tool_witness :
    ([({ id := "call_9", function := { name := "bad_tool", arguments := "" } } : ToolCall)][0]? =
      some ({ id := "call_9", function := { name := "bad_tool", arguments := "" } } : ToolCall)) ∧
    ({ id := "call_9", function := { name := "bad_tool", arguments := "" } } : ToolCall).function.name ≠ "get_page_text" ∧
    (execute envAllOk [{ id := "call_9", function := { name := "bad_tool", arguments := "" } }])[0]? =
      some { tool_call_id := "call_9", content := "Error: Unknown tool: " ++ "bad_tool" } :=
  ⟨rfl, by decide,
    (c10_executor_total_unknown_tool envAllOk
      [{ id := "call_9", function := { name := "bad_tool", arguments := "" } }]).2.2 0 _ rfl
      (by decide)⟩

end Emerald
